import Mathlib

/-!
Shallow embedding of the Rust source `src/lib/binding_rust/lib.rs` of the
`tree-surgent` repository: the property-sheet compiler (`PropertySheet::new`),
the property cursor (`TreePropertyCursor`), and the query-predicate compiler
and evaluator (`Query::new`, `QueryCursor::captures_match_condition`,
`QueryCursor::matches`, `QueryCursor::captures`).

Modelling conventions:
* Machine integers (`u16`, `u32`, `usize`) are modelled as `Nat`.  None of the
  properties below concern integer overflow, and the source's casts are
  lossless whenever the counts involved fit in the machine width.
* Byte strings (`&[u8]`) are `List Nat` (each entry a byte value).
* The `regex` crate is an external collaborator.  A compiled regex is
  represented by its pattern string, and the matching engine is passed in as a
  function parameter (`rmatch`/`bmatch : String → List Nat → Bool`); whether a
  pattern compiles is passed in as `regexOk : String → Bool`.
* `HashMap<u16, Vec<…>>` is modelled as an association list
  `List (Nat × List …)` with first-match lookup; the source only reads maps
  through `get`, `entry(..).or_insert(..)` and whole-map iteration that adds to
  every bucket, so iteration order of the Rust map never affects bucket
  contents.
* A Rust panic (e.g. `Option::unwrap` on `None`) is modelled by an `Option`
  result being `none`.
* Fallible compilation returns `Except`.
-/

namespace TreeSurgent

/-! ## Bytes and UTF-8

`str::from_utf8` of the Rust standard library succeeds exactly on RFC-3629
valid UTF-8, and the resulting `&str` has the same bytes.  We model the
validity check; "the decoded text" is simply the byte list itself. -/

/-- Whether a byte is a UTF-8 continuation byte (`0x80..=0xBF`). -/
def isCont (b : Nat) : Bool := 0x80 ≤ b && b ≤ 0xBF

/-- Validity of a byte sequence as UTF-8, per RFC 3629; this is the
acceptance condition of `str::from_utf8`. -/
def isValidUtf8 : List Nat → Bool
  | [] => true
  | b :: rest =>
    if b < 0x80 then isValidUtf8 rest
    else if 0xC2 ≤ b && b ≤ 0xDF then
      match rest with
      | c1 :: rest2 => isCont c1 && isValidUtf8 rest2
      | [] => false
    else if b = 0xE0 then
      match rest with
      | c1 :: c2 :: rest2 => (0xA0 ≤ c1 && c1 ≤ 0xBF) && isCont c2 && isValidUtf8 rest2
      | _ => false
    else if (0xE1 ≤ b && b ≤ 0xEC) || b = 0xEE || b = 0xEF then
      match rest with
      | c1 :: c2 :: rest2 => isCont c1 && isCont c2 && isValidUtf8 rest2
      | _ => false
    else if b = 0xED then
      match rest with
      | c1 :: c2 :: rest2 => (0x80 ≤ c1 && c1 ≤ 0x9F) && isCont c2 && isValidUtf8 rest2
      | _ => false
    else if b = 0xF0 then
      match rest with
      | c1 :: c2 :: c3 :: rest2 =>
        (0x90 ≤ c1 && c1 ≤ 0xBF) && isCont c2 && isCont c3 && isValidUtf8 rest2
      | _ => false
    else if 0xF1 ≤ b && b ≤ 0xF3 then
      match rest with
      | c1 :: c2 :: c3 :: rest2 => isCont c1 && isCont c2 && isCont c3 && isValidUtf8 rest2
      | _ => false
    else if b = 0xF4 then
      match rest with
      | c1 :: c2 :: c3 :: rest2 =>
        (0x80 ≤ c1 && c1 ≤ 0x8F) && isCont c2 && isCont c3 && isValidUtf8 rest2
      | _ => false
    else false

/-- UTF-8 encoding of a single Unicode scalar value, as a list of bytes. -/
def utf8EncodeScalar (n : Nat) : List Nat :=
  if n < 0x80 then [n]
  else if n < 0x800 then [0xC0 + n / 64, 0x80 + n % 64]
  else if n < 0x10000 then [0xE0 + n / 4096, 0x80 + (n / 64) % 64, 0x80 + n % 64]
  else [0xF0 + n / 262144, 0x80 + (n / 4096) % 64, 0x80 + (n / 64) % 64, 0x80 + n % 64]

/-- Byte content of a Lean string: this models Rust's `str::as_bytes`. -/
def utf8Bytes (s : String) : List Nat :=
  (s.data.map (fun c => utf8EncodeScalar c.toNat)).flatten

/-! ## Query predicates

Embedding of the `QueryPredicate` data type, the predicate-clause parsing in
`Query::new` (`lib.rs` lines 1034-1148), and the evaluation in
`QueryCursor::captures_match_condition` / `capture_for_id` (lines 1259-1291)
and the `matches` / `captures` iterators (lines 1184-1257).

The structural query engine (C library) is external: it supplies, per
pattern, a stream of raw predicate steps (`TSQueryPredicateStep`), the
capture-name table and the string-value table, and at run time a stream of raw
matches (pattern index plus captured nodes).  Nodes are identified by opaque
ids (`Nat`); node text is read through the caller-supplied
`text_callback`, modelled as `textCb : Nat → List Nat`. -/

/-- The three raw predicate step types of `TSQueryPredicateStep`. -/
inductive StepType where
  | done
  | capture
  | strLit
  deriving DecidableEq, Repr

/-- A raw predicate step: a step type together with a `value_id` that indexes
either the capture-name table or the string-value table. -/
structure RawPredStep where
  type_ : StepType
  value_id : Nat
  deriving DecidableEq, Repr

/-- Embedding of the Rust enum `QueryPredicate`.  A compiled
`regex::bytes::Regex` is represented by its pattern string. -/
inductive QueryPredicate where
  | captureEqString (capture_id : Nat) (s : String)
  | captureEqCapture (capture_id1 : Nat) (capture_id2 : Nat)
  | captureMatchString (capture_id : Nat) (pattern : String)
  deriving DecidableEq, Repr

/-- Embedding of the Rust enum `QueryError`.  The external payloads
(`serde_json::Error`, offsets) are modelled as their displayed content. -/
inductive QueryError where
  | Syntax (offset : Nat)
  | NodeType (name : String)
  | Field (name : String)
  | Capture (name : String)
  | Predicate (message : String)
  deriving DecidableEq, Repr

/-- Splitting a predicate-step stream on `Done` markers: this is
`predicate_steps.split(|s| s.type_ == type_done)` in `Query::new`
(line 1049).  Like Rust's `slice::split`, separators are dropped and empty
groups are kept. -/
def splitOnDone : List RawPredStep → List (List RawPredStep)
  | [] => [[]]
  | s :: rest =>
    if s.type_ = StepType.done then [] :: splitOnDone rest
    else
      match splitOnDone rest with
      | g :: gs => (s :: g) :: gs
      | [] => [[s]]

/-- Processing of one non-empty predicate clause, from the body of the
`for p in predicate_steps.split(..)` loop of `Query::new` (lines 1049-1142).
Every error message there is wrapped in `QueryError::Predicate`; we return the
bare message and wrap once at the top.  `regexOk` stands for
`regex::bytes::Regex::new` succeeding on a pattern. -/
def processClauseQ (regexOk : String → Bool) (captureNames stringValues : List String)
    (p : List RawPredStep) (acc : List (String × String) × List QueryPredicate) :
    Except String (List (String × String) × List QueryPredicate) :=
  match p with
  | [] => .ok acc
  | s0 :: args =>
    if s0.type_ ≠ StepType.strLit then
      .error ("Expected predicate to start with a function name. Got @"
        ++ captureNames.getD s0.value_id "" ++ ".")
    else
      let operator_name := stringValues.getD s0.value_id ""
      if operator_name = "eq?" then
        match args with
        | [a1, a2] =>
          if a1.type_ ≠ StepType.capture then
            .error ("First argument to eq? predicate must be a capture name. Got literal \""
              ++ stringValues.getD a1.value_id "" ++ "\".")
          else
            .ok (acc.1,
              acc.2 ++ [if a2.type_ = StepType.capture then
                  QueryPredicate.captureEqCapture a1.value_id a2.value_id
                else
                  QueryPredicate.captureEqString a1.value_id
                    (stringValues.getD a2.value_id "")])
        | _ =>
          .error ("Wrong number of arguments to eq? predicate. Expected 2, got "
            ++ toString args.length ++ ".")
      else if operator_name = "match?" then
        match args with
        | [a1, a2] =>
          if a1.type_ ≠ StepType.capture then
            .error ("First argument to match? predicate must be a capture name. Got literal \""
              ++ stringValues.getD a1.value_id "" ++ "\".")
          else if a2.type_ = StepType.capture then
            .error ("Second argument to match? predicate must be a literal. Got capture @"
              ++ captureNames.getD a2.value_id "" ++ ".")
          else
            let regexSource := stringValues.getD a2.value_id ""
            if regexOk regexSource then
              .ok (acc.1, acc.2 ++ [QueryPredicate.captureMatchString a1.value_id regexSource])
            else
              .error ("Invalid regex '" ++ regexSource ++ "'")
        | _ =>
          .error ("Wrong number of arguments to match? predicate. Expected 2, got "
            ++ toString args.length ++ ".")
      else if operator_name = "set!" then
        match args with
        | [a1, a2] =>
          if a1.type_ ≠ StepType.strLit || a2.type_ ≠ StepType.strLit then
            .error "Argument to set! predicate must be strings."
          else
            .ok (acc.1 ++ [(stringValues.getD a1.value_id "", stringValues.getD a2.value_id "")],
              acc.2)
        | _ =>
          .error ("Wrong number of arguments to set! predicate. Expected 2, got "
            ++ toString args.length ++ ".")
      else
        .error ("Unknown query predicate function " ++ operator_name)

/-- Sequential processing of the clauses of one pattern (the `for p in …`
loop, with `continue` on empty clauses). -/
def processClausesQ (regexOk : String → Bool) (captureNames stringValues : List String) :
    List (List RawPredStep) → List (String × String) × List QueryPredicate →
    Except String (List (String × String) × List QueryPredicate)
  | [], acc => .ok acc
  | p :: rest, acc =>
    match processClauseQ regexOk captureNames stringValues p acc with
    | .error e => .error e
    | .ok acc2 => processClausesQ regexOk captureNames stringValues rest acc2

/-- Predicate/property compilation of `Query::new` over all patterns
(lines 1035-1148): yields, per pattern index, the predicate list and the
declared-property list.  All errors are `QueryError.Predicate`. -/
def buildQueryPredicates (regexOk : String → Bool) (captureNames stringValues : List String) :
    List (List RawPredStep) →
    Except QueryError (List (List QueryPredicate) × List (List (String × String)))
  | [] => .ok ([], [])
  | steps :: rest =>
    match processClausesQ regexOk captureNames stringValues (splitOnDone steps) ([], []) with
    | .error msg => .error (QueryError.Predicate msg)
    | .ok (props, preds) =>
      match buildQueryPredicates regexOk captureNames stringValues rest with
      | .error e => .error e
      | .ok (predss, propss) => .ok (preds :: predss, props :: propss)

/-- A raw structural match as delivered by the external matcher: pattern
index plus the capture set, each capture being `(capture index, node id)`. -/
structure RawMatch where
  pattern_index : Nat
  captures : List (Nat × Nat)
  deriving DecidableEq, Repr

/-- Embedding of `QueryCursor::capture_for_id` (lines 1284-1291): the node of
the first capture in the set whose index equals `capture_id`. -/
def capture_for_id (captures : List (Nat × Nat)) (capture_id : Nat) : Option Nat :=
  match captures.find? (fun c => c.1 = capture_id) with
  | some c => some c.2
  | none => none

/-- Evaluation of one predicate against a raw capture set, from the match arms
of `QueryCursor::captures_match_condition` (lines 1267-1281).  The source
calls `capture_for_id(..).unwrap()`: a `none` result here models that panic
when the referenced capture is absent. -/
def evalPredicate (bmatch : String → List Nat → Bool) (textCb : Nat → List Nat)
    (captures : List (Nat × Nat)) : QueryPredicate → Option Bool
  | .captureEqCapture i j =>
    match capture_for_id captures i with
    | none => none
    | some n1 =>
      match capture_for_id captures j with
      | none => none
      | some n2 => some (textCb n1 = textCb n2)
  | .captureEqString i s =>
    match capture_for_id captures i with
    | none => none
    | some n => some (textCb n = utf8Bytes s)
  | .captureMatchString i pat =>
    match capture_for_id captures i with
    | none => none
    | some n => some (bmatch pat (textCb n))

/-- Embedding of `QueryCursor::captures_match_condition` (lines 1259-1282):
`Iterator::all` over the pattern's predicates, short-circuiting on the first
failure; `none` models a panic inside the evaluation of a reached
predicate. -/
def captures_match_condition (bmatch : String → List Nat → Bool) (textCb : Nat → List Nat)
    (preds : List QueryPredicate) (captures : List (Nat × Nat)) : Option Bool :=
  match preds with
  | [] => some true
  | p :: rest =>
    match evalPredicate bmatch textCb captures p with
    | none => none
    | some false => some false
    | some true => captures_match_condition bmatch textCb rest captures

/-- The `matches` iterator of `QueryCursor` (lines 1184-1216) applied to the
finite sequence of raw matches produced by the external engine: keep a match
iff its pattern's predicates all pass; `none` models a panic raised while
filtering. -/
def matchesFiltered (bmatch : String → List Nat → Bool) (textCb : Nat → List Nat)
    (predicates : List (List QueryPredicate)) : List RawMatch → Option (List RawMatch)
  | [] => some []
  | m :: rest =>
    match captures_match_condition bmatch textCb (predicates.getD m.pattern_index []) m.captures with
    | none => none
    | some true =>
      match matchesFiltered bmatch textCb predicates rest with
      | none => none
      | some tail => some (m :: tail)
    | some false => matchesFiltered bmatch textCb predicates rest

/-- The `captures` iterator of `QueryCursor` (lines 1218-1257) applied to the
finite sequence of raw `(match, capture index)` events of the external engine:
each candidate capture is yielded (as `(pattern index, capture)`) iff the
owning match's full predicate set passes; `none` models a panic. -/
def capturesFiltered (bmatch : String → List Nat → Bool) (textCb : Nat → List Nat)
    (predicates : List (List QueryPredicate)) :
    List (RawMatch × Nat) → Option (List (Nat × (Nat × Nat)))
  | [] => some []
  | (m, ci) :: rest =>
    match captures_match_condition bmatch textCb (predicates.getD m.pattern_index []) m.captures with
    | none => none
    | some true =>
      match capturesFiltered bmatch textCb predicates rest with
      | none => none
      | some tail => some ((m.pattern_index, m.captures.getD ci (0, 0)) :: tail)
    | some false => capturesFiltered bmatch textCb predicates rest

/-- Analysis predicate: the predicate references a capture index that is
absent from the raw match's capture set. -/
def referencesAbsent (captures : List (Nat × Nat)) : QueryPredicate → Bool
  | .captureEqCapture i j =>
    (capture_for_id captures i).isNone || (capture_for_id captures j).isNone
  | .captureEqString i _ => (capture_for_id captures i).isNone
  | .captureMatchString i _ => (capture_for_id captures i).isNone

/-- Analysis predicate: one of the defects of a predicate clause that claim C8
enumerates — non-empty and starting with a non-literal, unknown function name,
wrong arity for `eq?`/`match?`/`set!`, non-capture first argument to `eq?` or
`match?`, capture second argument to `match?`, or a non-literal argument to
`set!`. -/
def clauseDefect (stringValues : List String) : List RawPredStep → Bool
  | [] => false
  | s0 :: args =>
    if s0.type_ ≠ StepType.strLit then true
    else
      let op := stringValues.getD s0.value_id ""
      if op = "eq?" then
        match args with
        | [a1, _] => a1.type_ ≠ StepType.capture
        | _ => true
      else if op = "match?" then
        match args with
        | [a1, a2] => a1.type_ ≠ StepType.capture || a2.type_ = StepType.capture
        | _ => true
      else if op = "set!" then
        match args with
        | [a1, a2] => a1.type_ ≠ StepType.strLit || a2.type_ ≠ StepType.strLit
        | _ => true
      else true

/-! ## Property sheet compiler

Embedding of `PropertySheet::new` (`lib.rs` lines 1400-1512) and the data
model it builds (`PropertyTransition`, `PropertyState`, `PropertySheet`,
lines 68-92, and the declarative JSON shapes, lines 94-122).

The grammar metadata (`Language`) is an external collaborator: it provides,
per kind id, the kind's name and named/anonymous flag, and a field-name to
field-id resolution.  The `serde_json` parsing step is also external; the
embedding starts from the already-parsed `PropertySheetJSON`.  Property-set
payloads are opaque to the compiler and modelled as `String`. -/

/-- Grammar metadata consumed from the excluded engine layer: `kinds` is
indexed by kind id and gives `(name, is_named)`; `fields` maps field names to
their (nonzero) ids, as `Language::field_id_for_name` does. -/
structure Language where
  kinds : List (String × Bool)
  fields : List (String × Nat)
  deriving DecidableEq, Repr

/-- `Language::node_kind_count` (line 183). -/
def Language.node_kind_count (lang : Language) : Nat := lang.kinds.length

/-- `Language::node_kind_for_id` (line 187). -/
def Language.node_kind_for_id (lang : Language) (id : Nat) : String :=
  (lang.kinds.getD id ("", false)).1

/-- `Language::node_kind_is_named` (line 193). -/
def Language.node_kind_is_named (lang : Language) (id : Nat) : Bool :=
  (lang.kinds.getD id ("", false)).2

/-- `Language::field_id_for_name` (line 207). -/
def Language.field_id_for_name (lang : Language) (name : String) : Option Nat :=
  match lang.fields.find? (fun f => f.1 = name) with
  | some f => some f.2
  | none => none

/-- Embedding of the Rust struct `PropertyTransitionJSON` (lines 94-108);
`kind` is the field serde renames from `"type"`. -/
structure PropertyTransitionJSON where
  kind : Option String
  named : Option Bool
  index : Option Nat
  field : Option String
  text : Option String
  state_id : Nat
  deriving DecidableEq, Repr

/-- Embedding of the Rust struct `PropertyStateJSON` (lines 110-116, minus the
unused `id`). -/
structure PropertyStateJSON where
  property_set_id : Nat
  transitions : List PropertyTransitionJSON
  default_next_state_id : Nat
  deriving DecidableEq, Repr

/-- Embedding of `PropertySheetJSON` (lines 118-122); payloads are opaque. -/
structure PropertySheetJSON where
  states : List PropertyStateJSON
  property_sets : List String
  deriving DecidableEq, Repr

/-- Embedding of the Rust struct `PropertyTransition` (lines 68-73). -/
structure PropertyTransition where
  state_id : Nat
  child_index : Option Nat
  text_regex_index : Option Nat
  node_kind_id : Option Nat
  deriving DecidableEq, Repr

/-- Transition buckets: the model of `HashMap<u16, Vec<PropertyTransition>>`
as an association list. -/
abbrev Buckets := List (Nat × List PropertyTransition)

/-- Embedding of the Rust struct `PropertyState` (lines 75-80). -/
structure PropertyState where
  field_transitions : Buckets
  kind_transitions : Buckets
  property_set_id : Nat
  default_next_state_id : Nat
  deriving DecidableEq, Repr

/-- Embedding of `PropertySheetError` (lines 82-86); the external error
payloads are modelled by their display strings / pattern. -/
inductive PropertySheetError where
  | InvalidJSON (message : String)
  | InvalidRegex (pattern : String)
  deriving DecidableEq, Repr

/-- Embedding of the Rust struct `PropertySheet` (lines 88-92).  An entry of
`text_regexes` is a compiled regex, represented by its pattern string. -/
structure PropertySheet where
  states : List PropertyState
  property_sets : List String
  text_regexes : List String
  deriving DecidableEq, Repr

/-- Association-list lookup, modelling `HashMap::get`. -/
def alGet {α : Type} : List (Nat × α) → Nat → Option α
  | [], _ => none
  | (k, v) :: rest, key => if k = key then some v else alGet rest key

/-- The transition list of a bucket, empty when the bucket is absent. -/
def bucketOf (m : Buckets) (k : Nat) : List PropertyTransition := (alGet m k).getD []

/-- Modelling `map.entry(k).or_insert(Vec::new())` when the inserted value is
only created, not pushed to (the first pass of `PropertySheet::new`,
lines 1416-1424). -/
def alOrInsertEmpty (m : Buckets) (k : Nat) : Buckets :=
  if (alGet m k).isSome then m else m ++ [(k, [])]

/-- Modelling `map.entry(k).or_insert(Vec::new()).push(t)`. -/
def alPush (m : Buckets) (k : Nat) (t : PropertyTransition) : Buckets :=
  match m with
  | [] => [(k, [t])]
  | (k2, v) :: rest => if k2 = k then (k2, v ++ [t]) :: rest else (k2, v) :: alPush rest k t

/-- Modelling `for (_, entries) in map.iter_mut() { entries.push(t) }`
(lines 1469-1476): push onto every existing bucket. -/
def alPushAll (m : Buckets) (t : PropertyTransition) : Buckets :=
  m.map (fun e => (e.1, e.2 ++ [t]))

/-- The first pass over a state's transitions (lines 1416-1424): instantiate
an empty field bucket for every clause whose field name resolves. -/
def prepassFields (lang : Language) (ts : List PropertyTransitionJSON) (init : Buckets) :
    Buckets :=
  ts.foldl (fun m t =>
    match t.field.bind lang.field_id_for_name with
    | some f => alOrInsertEmpty m f
    | none => m) init

/-- Resolution of a clause's optional regex literal to a shared compiled-regex
index (lines 1427-1441): reuse the index of an equal pattern string seen
before in this sheet, else compile (possibly failing with `InvalidRegex`) and
append. -/
def resolveRegexIndex (regexOk : String → Bool) (text : Option String) (pats : List String) :
    Except PropertySheetError (Option Nat × List String) :=
  match text with
  | none => .ok (none, pats)
  | some p =>
    if p ∈ pats then .ok (some (pats.indexOf p), pats)
    else if regexOk p then .ok (some pats.length, pats ++ [p])
    else .error (.InvalidRegex p)

/-- The kind ids a clause with kind name `kindName` and named-flag `named`
matches: the guard is the negation of the `continue` condition at
lines 1452-1456, so a kind id matches iff its name equals `kindName` and
`named` is `some` of its named flag. -/
def matchingKinds (lang : Language) (kindName : String) (named : Option Bool) : List Nat :=
  (List.range lang.node_kind_count).filter (fun id =>
    kindName = lang.node_kind_for_id id && named = some (lang.node_kind_is_named id))

/-- Registration of one clause for one matching kind id (the body of the
`for kind_id in …` loop, lines 1451-1487): with a field, push into that field
bucket carrying the kind id as runtime filter; without a field, replicate
(with the kind filter) into every existing field bucket and push (without the
filter) into the kind bucket. -/
def registerKind (fieldId : Option Nat) (state_id : Nat) (child_index : Option Nat)
    (text_regex_index : Option Nat) (acc : Buckets × Buckets) (kind_id : Nat) :
    Buckets × Buckets :=
  match fieldId with
  | some f =>
    (acc.1, alPush acc.2 f ⟨state_id, child_index, text_regex_index, some kind_id⟩)
  | none =>
    (alPush acc.1 kind_id ⟨state_id, child_index, text_regex_index, none⟩,
      alPushAll acc.2 ⟨state_id, child_index, text_regex_index, some kind_id⟩)

/-- Processing of one transition clause in the second pass (lines 1426-1498),
threading `(kind buckets, field buckets, regex patterns)`. -/
def processClause (lang : Language) (regexOk : String → Bool) (c : PropertyTransitionJSON)
    (acc : Buckets × Buckets × List String) :
    Except PropertySheetError (Buckets × Buckets × List String) :=
  match resolveRegexIndex regexOk c.text acc.2.2 with
  | .error e => .error e
  | .ok (text_regex_index, pats) =>
    let fieldId := c.field.bind lang.field_id_for_name
    match c.kind with
    | some kindName =>
      let res := (matchingKinds lang kindName c.named).foldl
        (registerKind fieldId c.state_id c.index text_regex_index) (acc.1, acc.2.1)
      .ok (res.1, res.2, pats)
    | none =>
      match fieldId with
      | some f =>
        .ok (acc.1, alPush acc.2.1 f ⟨c.state_id, c.index, text_regex_index, none⟩, pats)
      | none => .ok (acc.1, acc.2.1, pats)

/-- Sequential processing of a state's clauses. -/
def processClauses (lang : Language) (regexOk : String → Bool) :
    List PropertyTransitionJSON → Buckets × Buckets × List String →
    Except PropertySheetError (Buckets × Buckets × List String)
  | [], acc => .ok acc
  | c :: rest, acc =>
    match processClause lang regexOk c acc with
    | .error e => .error e
    | .ok acc2 => processClauses lang regexOk rest acc2

/-- Compilation of one `PropertyStateJSON` (the body of the `for state in
input.states` loop, lines 1411-1505), threading the sheet-wide regex pattern
list. -/
def processState (lang : Language) (regexOk : String → Bool) (st : PropertyStateJSON)
    (pats : List String) : Except PropertySheetError (PropertyState × List String) :=
  match processClauses lang regexOk st.transitions ([], prepassFields lang st.transitions [], pats) with
  | .error e => .error e
  | .ok (kindT, fieldT, pats2) =>
    .ok (⟨fieldT, kindT, st.property_set_id, st.default_next_state_id⟩, pats2)

/-- Compilation of all states, threading the regex pattern list across
states. -/
def compileStates (lang : Language) (regexOk : String → Bool) :
    List PropertyStateJSON → List String →
    Except PropertySheetError (List PropertyState × List String)
  | [], pats => .ok ([], pats)
  | st :: rest, pats =>
    match processState lang regexOk st pats with
    | .error e => .error e
    | .ok (ps, pats2) =>
      match compileStates lang regexOk rest pats2 with
      | .error e => .error e
      | .ok (states, pats3) => .ok (ps :: states, pats3)

/-- Embedding of `PropertySheet::new` (lines 1400-1512), starting after the
external `serde_json` parse. -/
def compileSheet (lang : Language) (regexOk : String → Bool) (input : PropertySheetJSON) :
    Except PropertySheetError PropertySheet :=
  match compileStates lang regexOk input.states [] with
  | .error e => .error e
  | .ok (states, pats) => .ok ⟨states, input.property_sets, pats⟩

/-- The field ids that resolve from a clause list; these are exactly the keys
the first pass instantiates. -/
def resolvedFields (lang : Language) (ts : List PropertyTransitionJSON) : List Nat :=
  ts.filterMap (fun t => t.field.bind lang.field_id_for_name)

/-- All transitions stored anywhere in a compiled state. -/
def stateTransitions (st : PropertyState) : List PropertyTransition :=
  (st.field_transitions.map Prod.snd).flatten ++ (st.kind_transitions.map Prod.snd).flatten

/-! ## Tree model and property cursor

Embedding of `TreePropertyCursor` (`lib.rs` lines 133-139 and 843-960).  The
physical tree and its walking cursor are external collaborators; we model a
snapshot of the tree as a finite labelled tree.  Each child edge optionally
carries the field id the walking cursor would report for that child
(`TreeCursor::field_id`, `None` at the root); each node carries its kind id
and byte span. -/

/-- A syntax-tree node as observed through the external cursor: kind id, byte
span, and the children, each tagged with the field id (if any) it occupies in
this node. -/
inductive RawTree where
  | mk (kindId : Nat) (startByte : Nat) (endByte : Nat)
      (children : List (Option Nat × RawTree))

/-- The kind id of a node. -/
def RawTree.kindId : RawTree → Nat
  | .mk k _ _ _ => k

/-- The start byte of a node's span. -/
def RawTree.startByte : RawTree → Nat
  | .mk _ s _ _ => s

/-- The end byte of a node's span. -/
def RawTree.endByte : RawTree → Nat
  | .mk _ _ e _ => e

/-- The children of a node, with their field tags. -/
def RawTree.children : RawTree → List (Option Nat × RawTree)
  | .mk _ _ _ cs => cs

/-- Walking down a path of child indices from an entry `(field tag, node)`;
`none` when the path leaves the tree. -/
def descend : Option Nat × RawTree → List Nat → Option (Option Nat × RawTree)
  | entry, [] => some entry
  | entry, i :: rest =>
    match entry.2.children.get? i with
    | some child => descend child rest
    | none => none

/-- Embedding of the byte-slice expression
`&self.source[node.start_byte()..node.end_byte()]` (line 925). -/
def sliceBytes (src : List Nat) (s e : Nat) : List Nat := (src.take e).drop s

/-- Embedding of the Rust struct `TreePropertyCursor` (lines 133-139).  The
wrapped `TreeCursor` is represented by the tree snapshot plus the current path
of child indices; the stacks grow at the head (the head is the `Vec` top). -/
structure TreePropertyCursor where
  tree : RawTree
  path : List Nat
  state_stack : List Nat
  child_index_stack : List Nat
  property_sheet : PropertySheet
  source : List Nat

/-- The entry (field tag and node) currently under the wrapped cursor.  The
default is never reached for the in-tree paths the cursor maintains. -/
def TreePropertyCursor.entry (c : TreePropertyCursor) : Option Nat × RawTree :=
  (descend (none, c.tree) c.path).getD (none, c.tree)

/-- The satisfied/violated status of a transition's optional kind filter: the
negation of the first `continue` of `next_state` (lines 916-921). -/
def kindConstraintOk (nodeKindId : Nat) (t : PropertyTransition) : Bool :=
  match t.node_kind_id with
  | some id => id = nodeKindId
  | none => true

/-- The status of a transition's optional regex condition, from lines 923-933
of `next_state`: when the node's text is valid UTF-8 the compiled regex is
consulted (`continue` on non-match); when the text is not valid UTF-8 the
`if let Ok` test fails and control falls through, so the condition imposes
nothing.  Indexing past `text_regexes` cannot occur for compiled sheets. -/
def regexConstraintOk (sheet : PropertySheet) (rmatch : String → List Nat → Bool)
    (text : List Nat) (t : PropertyTransition) : Bool :=
  match t.text_regex_index with
  | some i =>
    if isValidUtf8 text then rmatch (sheet.text_regexes.getD i "") text else true
  | none => true

/-- The status of a transition's optional child-index filter, from
lines 935-939 of `next_state`. -/
def childConstraintOk (nodeChildIndex : Nat) (t : PropertyTransition) : Bool :=
  match t.child_index with
  | some ci => ci = nodeChildIndex
  | none => true

/-- Acceptance of one transition by the loop body of `next_state`
(lines 915-941): none of the three `continue`s fires. -/
def acceptsTransition (sheet : PropertySheet) (rmatch : String → List Nat → Bool)
    (nodeKindId : Nat) (text : List Nat) (nodeChildIndex : Nat)
    (t : PropertyTransition) : Bool :=
  kindConstraintOk nodeKindId t && regexConstraintOk sheet rmatch text t &&
    childConstraintOk nodeChildIndex t

/-- The inner `for transition in transitions.iter()` loop of `next_state`:
the first transition that is not skipped returns its target state id. -/
def scanTransitions (sheet : PropertySheet) (rmatch : String → List Nat → Bool)
    (nodeKindId : Nat) (text : List Nat) (nodeChildIndex : Nat) :
    List PropertyTransition → Option Nat
  | [] => none
  | t :: rest =>
    if acceptsTransition sheet rmatch nodeKindId text nodeChildIndex t then some t.state_id
    else scanTransitions sheet rmatch nodeKindId text nodeChildIndex rest

/-- The candidate-bucket lookup of `next_state` (lines 910-912):
`node_field_id.and_then(|f| state.field_transitions.get(&f))
   .or_else(|| state.kind_transitions.get(&kind_id))`. -/
def lookupTransitions (st : PropertyState) (nodeFieldId : Option Nat) (nodeKindId : Nat) :
    Option (List PropertyTransition) :=
  match nodeFieldId.bind (fun f => alGet st.field_transitions f) with
  | some ts => some ts
  | none => alGet st.kind_transitions nodeKindId

/-- Bucket lookup followed by the transition scan, for one searched state. -/
def scanState (sheet : PropertySheet) (rmatch : String → List Nat → Bool)
    (nodeFieldId : Option Nat) (nodeKindId : Nat) (text : List Nat)
    (nodeChildIndex : Nat) (st : PropertyState) : Option Nat :=
  match lookupTransitions st nodeFieldId nodeKindId with
  | some ts => scanTransitions sheet rmatch nodeKindId text nodeChildIndex ts
  | none => none

/-- The state a sheet holds at an index; compiled sheets are indexed within
bounds (`states[..]` in the source panics otherwise). -/
def stateAt (sheet : PropertySheet) (i : Nat) : PropertyState :=
  sheet.states.getD i ⟨[], [], 0, 0⟩

/-- Embedding of `TreePropertyCursor::next_state` (lines 903-951), with the
searched stack state made explicit: `curIdx` is the index at the top of the
state stack.  The `for state in [current_state, default_state]` loop breaks
after the first iteration when the two references coincide, which (both being
elements of the same vector) happens exactly when `curIdx = 0`; if nothing is
accepted the current state's own `default_next_state_id` is returned. -/
def next_state_core (sheet : PropertySheet) (rmatch : String → List Nat → Bool)
    (nodeFieldId : Option Nat) (nodeKindId : Nat) (text : List Nat)
    (nodeChildIndex : Nat) (curIdx : Nat) : Nat :=
  let cur := stateAt sheet curIdx
  match scanState sheet rmatch nodeFieldId nodeKindId text nodeChildIndex cur with
  | some sid => sid
  | none =>
    if curIdx = 0 then cur.default_next_state_id
    else
      match scanState sheet rmatch nodeFieldId nodeKindId text nodeChildIndex
          (stateAt sheet 0) with
      | some sid => sid
      | none => cur.default_next_state_id

/-- `TreePropertyCursor::next_state` as called on a cursor: the node data is
read from the wrapped cursor's current position and the searched state is the
top of the state stack. -/
def TreePropertyCursor.next_state (rmatch : String → List Nat → Bool)
    (c : TreePropertyCursor) (nodeChildIndex : Nat) : Nat :=
  let e := c.entry
  next_state_core c.property_sheet rmatch e.1 e.2.kindId
    (sliceBytes c.source e.2.startByte e.2.endByte) nodeChildIndex
    (c.state_stack.headD 0)

/-- Embedding of `TreePropertyCursor::new` (lines 844-855): seed both stacks
with `0`, resolve the root's state from the seed, and push it (onto the state
stack only). -/
def TreePropertyCursor.new (rmatch : String → List Nat → Bool) (tree : RawTree)
    (sheet : PropertySheet) (source : List Nat) : TreePropertyCursor :=
  let c0 : TreePropertyCursor :=
    { tree := tree, path := [], state_stack := [0], child_index_stack := [0],
      property_sheet := sheet, source := source }
  { c0 with state_stack := c0.next_state rmatch 0 :: c0.state_stack }

/-- Embedding of `TreePropertyCursor::goto_first_child` (lines 865-874): if
the wrapped cursor can descend, move it, compute the child's state from the
still-unchanged stacks, then push the state and a zero child index. -/
def TreePropertyCursor.goto_first_child (rmatch : String → List Nat → Bool)
    (c : TreePropertyCursor) : TreePropertyCursor × Bool :=
  if 0 < c.entry.2.children.length then
    let c1 := { c with path := c.path ++ [0] }
    let next_state_id := c1.next_state rmatch 0
    ({ c1 with
        state_stack := next_state_id :: c1.state_stack,
        child_index_stack := 0 :: c1.child_index_stack }, true)
  else (c, false)

/-- Embedding of `TreePropertyCursor::goto_next_sibling` (lines 876-887): if
the wrapped cursor can move sideways, move it, pop and increment the child
index, pop the state stack, recompute the state from the parent's (now
topmost) state, and push both. -/
def TreePropertyCursor.goto_next_sibling (rmatch : String → List Nat → Bool)
    (c : TreePropertyCursor) : TreePropertyCursor × Bool :=
  match c.path.getLast? with
  | none => (c, false)
  | some i =>
    let parentPath := c.path.dropLast
    let parentEntry := (descend (none, c.tree) parentPath).getD (none, c.tree)
    if i + 1 < parentEntry.2.children.length then
      let child_index := c.child_index_stack.headD 0 + 1
      let c1 := { c with
        path := parentPath ++ [i + 1],
        state_stack := c.state_stack.tail,
        child_index_stack := c.child_index_stack.tail }
      let next_state_id := c1.next_state rmatch child_index
      ({ c1 with
          state_stack := next_state_id :: c1.state_stack,
          child_index_stack := child_index :: c1.child_index_stack }, true)
    else (c, false)

/-- Embedding of `TreePropertyCursor::goto_parent` (lines 889-897): pop both
stacks when not at the root. -/
def TreePropertyCursor.goto_parent (c : TreePropertyCursor) : TreePropertyCursor × Bool :=
  if c.path = [] then (c, false)
  else
    ({ c with
        path := c.path.dropLast,
        state_stack := c.state_stack.tail,
        child_index_stack := c.child_index_stack.tail }, true)

/-- The current tree depth of a cursor (root depth 0). -/
def TreePropertyCursor.depth (c : TreePropertyCursor) : Nat := c.path.length

/-! ## Concrete instances used by counterexamples and witnesses -/

/-- A regex engine that never matches. -/
def rmFalse : String → List Nat → Bool := fun _ _ => false

/-- A byte-level regex engine instance agreeing with `regex::bytes` on the
single pattern `"a"`: searching (substring semantics) for the byte `0x61`. -/
def bmatchA : String → List Nat → Bool := fun pat bs => pat = "a" && bs.contains 97

/-- A node-text accessor: node 5 has the bytes `[0xFF, 0x61]` (not valid
UTF-8, containing an ASCII `a`); all other nodes are empty. -/
def textCbEx : Nat → List Nat := fun n => if n = 5 then [255, 97] else []

/-- A pattern compilation oracle accepting every pattern. -/
def rokTrue : String → Bool := fun _ => true

/-- A raw match whose capture set lacks capture index 1. -/
def absentMatch : RawMatch := ⟨0, [(0, 42)]⟩

/-- A raw match capturing node 5 (whose text is not valid UTF-8) as capture
index 0. -/
def invalidTextMatch : RawMatch := ⟨0, [(0, 5)]⟩

/-- A sheet whose only state has a single kind-bucket transition (for kind 2)
to state 7 guarded by regex 0. -/
def sheetC2 : PropertySheet := ⟨[⟨[], [(2, [⟨7, none, some 0, none⟩])], 0, 0⟩], [], ["x"]⟩

/-- A sheet whose only state has an empty field table, a kind-bucket
transition (kind 2) to state 7, and default next state 3. -/
def sheetC6 : PropertySheet := ⟨[⟨[], [(2, [⟨7, none, none, none⟩])], 0, 3⟩], [], []⟩

/-- A two-node tree: a root of kind 1 with one child of kind 2. -/
def treeC4 : RawTree := .mk 1 0 1 [(none, .mk 2 0 1 [])]

/-- A sheet with a single empty state. -/
def sheetC4 : PropertySheet := ⟨[⟨[], [], 0, 0⟩], [], []⟩

/-- A freshly constructed property cursor over `treeC4`. -/
def cursorC4 : TreePropertyCursor := .new rmFalse treeC4 sheetC4 [97]

/-- A grammar with one kind (`"k"`, named) and one field (`"f"`, id 1). -/
def langC3 : Language := ⟨[("k", true)], [("f", 1)]⟩

/-- A clause with a kind set and no field, targeting state 5. -/
def clauseKindOnly : PropertyTransitionJSON := ⟨some "k", some true, none, none, none, 5⟩

/-- A clause with a field and no kind set, targeting state 6. -/
def clauseFieldOnly : PropertyTransitionJSON := ⟨none, none, none, some "f", none, 6⟩

/-- A declarative state whose kind-only clause comes first, before the only
clause that names the field `"f"`. -/
def stC3 : PropertyStateJSON := ⟨0, [clauseKindOnly, clauseFieldOnly], 0⟩

/-- A declarative sheet whose clauses carry the regex literal `"ab"` twice and
`"cd"` once. -/
def inputC9 : PropertySheetJSON :=
  ⟨[⟨0, [⟨none, none, none, none, some "ab", 1⟩, ⟨none, none, none, none, some "ab", 2⟩,
      ⟨none, none, none, none, some "cd", 3⟩], 0⟩], []⟩

/-- The sheet `compileSheet` produces from `inputC9`. -/
def sheetC9 : PropertySheet := ⟨[⟨[], [], 0, 0⟩], [], ["ab", "cd"]⟩

/-- A clause naming kind `"k"` but omitting the `"named"` flag. -/
def clauseC10 : PropertyTransitionJSON := ⟨some "k", none, none, none, none, 4⟩

/-- Analysis predicate: every transition stored in the buckets references a
compiled-regex index within the bounds of the pattern list. -/
def bucketsIdxOk (pats : List String) (m : Buckets) : Prop :=
  ∀ e ∈ m, ∀ t ∈ e.2, ∀ i, t.text_regex_index = some i → i < pats.length

/-- Analysis relation: every bucket of `m` survives into `m2`, extended only
by appending (transitions are never removed or reordered). -/
def bucketsGrow (m m2 : Buckets) : Prop :=
  ∀ f b, alGet m f = some b → ∃ b2, alGet m2 f = some (b ++ b2)

/-- Analysis predicate for claim C4: the actual shape invariant of the two
traversal stacks — the state stack keeps the seed state 0 *below* the root's
resolved state, so it holds one more entry than the child-index stack. -/
def stacksOk (c : TreePropertyCursor) : Prop :=
  c.state_stack.length = c.depth + 2 ∧ c.child_index_stack.length = c.depth + 1

/-! ## Theorems -/

/-- Helper: a predicate that references a capture index absent from the raw
capture set evaluates to a panic (`none`), via the `unwrap` of
`capture_for_id`. -/
theorem evalPredicate_none_of_absent (bmatch : String → List Nat → Bool)
    (textCb : Nat → List Nat) (captures : List (Nat × Nat)) (p : QueryPredicate)
    (h : referencesAbsent captures p = true) :
    evalPredicate bmatch textCb captures p = none := by
  cases p with
  | captureEqCapture i j =>
    simp only [referencesAbsent, Bool.or_eq_true, Option.isNone_iff_eq_none] at h
    rcases h with h | h
    · simp [evalPredicate, h]
    · cases hc : capture_for_id captures i <;> simp [evalPredicate, hc, h]
  | captureEqString i s =>
    simp only [referencesAbsent, Option.isNone_iff_eq_none] at h
    simp [evalPredicate, h]
  | captureMatchString i pat =>
    simp only [referencesAbsent, Option.isNone_iff_eq_none] at h
    simp [evalPredicate, h]

/-- Helper: if any predicate of the list references an absent capture, the
conjunction can never report success — evaluation either fails earlier or
panics at the offending predicate. -/
theorem captures_match_condition_ne_true_of_absent (bmatch : String → List Nat → Bool)
    (textCb : Nat → List Nat) (captures : List (Nat × Nat)) :
    ∀ preds : List QueryPredicate, (∃ p ∈ preds, referencesAbsent captures p = true) →
      captures_match_condition bmatch textCb preds captures ≠ some true
  | [], h => by simp at h
  | p :: rest, h => by
    by_cases hp : referencesAbsent captures p = true
    · simp [captures_match_condition, evalPredicate_none_of_absent bmatch textCb captures p hp]
    · rcases h with ⟨q, hq, hqa⟩
      rcases List.mem_cons.mp hq with rfl | hq2
      · exact absurd hqa hp
      · have ih := captures_match_condition_ne_true_of_absent bmatch textCb captures rest
          ⟨q, hq2, hqa⟩
        simp only [captures_match_condition]
        cases he : evalPredicate bmatch textCb captures p with
        | none => simp
        | some b => cases b <;> simp [ih]

/-- C1 counterexample: a match whose pattern has an `eq?` capture-to-capture
predicate referencing capture index 1, absent from the raw capture set.  The
claim says the predicate is treated as failed and the match is filtered out
of `matches`/`captures` with no panic; the code instead panics (`unwrap` of
`None` in `captures_match_condition`), modelled by the `none` results, so
neither stream yields the claimed filtered list. -/
theorem c1_counterexample :
    capture_for_id absentMatch.captures 1 = none ∧
    matchesFiltered bmatchA textCbEx [[.captureEqCapture 0 1]] [absentMatch] = none ∧
    capturesFiltered bmatchA textCbEx [[.captureEqCapture 0 1]] [(absentMatch, 0)] = none ∧
    (none : Option (List RawMatch)) ≠ some [] := by decide

/-- C1 (corrected): when an `eq?` or `match?` predicate references a capture
index absent from the raw match's capture set, evaluation does not treat the
predicate as failed: if the offending predicate is the one being evaluated the
code panics (the `unwrap` in `captures_match_condition`, modelled as `none`),
and in no case does the predicate set evaluate to a successful match. -/
theorem c1_absent_capture_panics (bmatch : String → List Nat → Bool)
    (textCb : Nat → List Nat) (captures : List (Nat × Nat))
    (preds : List QueryPredicate) :
    (∀ p rest, preds = p :: rest → referencesAbsent captures p = true →
      captures_match_condition bmatch textCb preds captures = none) ∧
    ((∃ p ∈ preds, referencesAbsent captures p = true) →
      captures_match_condition bmatch textCb preds captures ≠ some true) := by
  constructor
  · intro p rest hp hab
    subst hp
    simp [captures_match_condition, evalPredicate_none_of_absent bmatch textCb captures p hab]
  · exact captures_match_condition_ne_true_of_absent bmatch textCb captures preds

/-- Witness for `c1_absent_capture_panics` at a concrete input. -/
theorem c1_absent_capture_panics_witness :
    captures_match_condition bmatchA textCbEx [.captureEqCapture 0 1] absentMatch.captures
      = none :=
  (c1_absent_capture_panics bmatchA textCbEx absentMatch.captures
    [.captureEqCapture 0 1]).1 (.captureEqCapture 0 1) [] rfl (by decide)

/-- C7 counterexample: a match whose capture 0 is node 5, whose text
`[0xFF, 0x61]` is not valid UTF-8, tested by the predicate
`match? @0 "a"`.  The byte-level regex engine (`regex::bytes`, modelled by
`bmatchA`) finds `a` in those bytes, so the match is *included* in the
filtered `matches` stream — the claim says every such match is excluded. -/
theorem c7_counterexample :
    isValidUtf8 (textCbEx 5) = false ∧
    capture_for_id invalidTextMatch.captures 0 = some 5 ∧
    matchesFiltered bmatchA textCbEx [[.captureMatchString 0 "a"]] [invalidTextMatch]
      = some [invalidTextMatch] ∧
    some [invalidTextMatch] ≠ (some [] : Option (List RawMatch)) := by decide

/-- C7 (corrected): a `match?` predicate is evaluated directly on the
capture's bytes by the byte-level regex engine, with no UTF-8 validation and
no panic when the capture is present: the predicate's outcome — and hence
whether the match survives filtering — is exactly the engine's verdict on the
raw bytes, regardless of whether they are valid UTF-8. -/
theorem c7_match_pred_is_byte_level (bmatch : String → List Nat → Bool)
    (textCb : Nat → List Nat) (captures : List (Nat × Nat)) (i : Nat) (pat : String)
    (n : Nat) (h : capture_for_id captures i = some n) :
    evalPredicate bmatch textCb captures (.captureMatchString i pat)
      = some (bmatch pat (textCb n)) ∧
    captures_match_condition bmatch textCb [.captureMatchString i pat] captures
      = some (bmatch pat (textCb n)) := by
  refine ⟨by simp [evalPredicate, h], ?_⟩
  cases hb : bmatch pat (textCb n) <;>
    simp [captures_match_condition, evalPredicate, h, hb]

/-- Witness for `c7_match_pred_is_byte_level` at a concrete input. -/
theorem c7_match_pred_is_byte_level_witness :
    evalPredicate bmatchA textCbEx invalidTextMatch.captures (.captureMatchString 0 "a")
      = some (bmatchA "a" (textCbEx 5)) :=
  (c7_match_pred_is_byte_level bmatchA textCbEx invalidTextMatch.captures 0 "a" 5
    (by decide)).1

/-- Helper: a clause with one of the defects enumerated by claim C8 makes the
clause processor of `Query::new` fail. -/
theorem processClauseQ_error_of_defect (regexOk : String → Bool)
    (captureNames stringValues : List String) (p : List RawPredStep)
    (acc : List (String × String) × List QueryPredicate)
    (h : clauseDefect stringValues p = true) :
    ∃ msg, processClauseQ regexOk captureNames stringValues p acc = .error msg := by
  match p with
  | [] => simp [clauseDefect] at h
  | s0 :: args =>
    by_cases h0 : s0.type_ = StepType.strLit
    · by_cases he : stringValues.getD s0.value_id "" = "eq?"
      · match args with
        | [] =>
          exact ⟨_, by simp only [processClauseQ]; rw [if_neg (not_not_intro h0), if_pos he]⟩
        | [a1] =>
          exact ⟨_, by simp only [processClauseQ]; rw [if_neg (not_not_intro h0), if_pos he]⟩
        | [a1, a2] =>
          simp only [clauseDefect, h0, he] at h
          simp at h
          exact ⟨_, by
            simp only [processClauseQ]
            rw [if_neg (not_not_intro h0), if_pos he, if_pos h]⟩
        | a1 :: a2 :: a3 :: rest =>
          exact ⟨_, by simp only [processClauseQ]; rw [if_neg (not_not_intro h0), if_pos he]⟩
      · by_cases hm : stringValues.getD s0.value_id "" = "match?"
        · match args with
          | [] =>
            exact ⟨_, by
              simp only [processClauseQ]
              rw [if_neg (not_not_intro h0), if_neg he, if_pos hm]⟩
          | [a1] =>
            exact ⟨_, by
              simp only [processClauseQ]
              rw [if_neg (not_not_intro h0), if_neg he, if_pos hm]⟩
          | [a1, a2] =>
            simp only [clauseDefect, h0, he, hm] at h
            simp at h
            by_cases h1 : a1.type_ = StepType.capture
            · have h2 : a2.type_ = StepType.capture := by
                rcases h with h | h
                · exact absurd h1 h
                · exact h
              exact ⟨_, by
                simp only [processClauseQ]
                rw [if_neg (not_not_intro h0), if_neg he, if_pos hm,
                  if_neg (not_not_intro h1), if_pos h2]⟩
            · exact ⟨_, by
                simp only [processClauseQ]
                rw [if_neg (not_not_intro h0), if_neg he, if_pos hm, if_pos h1]⟩
          | a1 :: a2 :: a3 :: rest =>
            exact ⟨_, by
              simp only [processClauseQ]
              rw [if_neg (not_not_intro h0), if_neg he, if_pos hm]⟩
        · by_cases hs : stringValues.getD s0.value_id "" = "set!"
          · match args with
            | [] =>
              exact ⟨_, by
                simp only [processClauseQ]
                rw [if_neg (not_not_intro h0), if_neg he, if_neg hm, if_pos hs]⟩
            | [a1] =>
              exact ⟨_, by
                simp only [processClauseQ]
                rw [if_neg (not_not_intro h0), if_neg he, if_neg hm, if_pos hs]⟩
            | [a1, a2] =>
              simp only [clauseDefect, h0, he, hm, hs] at h
              simp at h
              have hb : (decide (a1.type_ ≠ StepType.strLit)
                  || decide (a2.type_ ≠ StepType.strLit)) = true := by
                rcases h with h | h <;> simp [h]
              exact ⟨_, by
                simp only [processClauseQ]
                rw [if_neg (not_not_intro h0), if_neg he, if_neg hm, if_pos hs, if_pos hb]⟩
            | a1 :: a2 :: a3 :: rest =>
              exact ⟨_, by
                simp only [processClauseQ]
                rw [if_neg (not_not_intro h0), if_neg he, if_neg hm, if_pos hs]⟩
          · exact ⟨_, by
              simp only [processClauseQ]
              rw [if_neg (not_not_intro h0), if_neg he, if_neg hm, if_neg hs]⟩
    · exact ⟨_, by simp only [processClauseQ]; rw [if_pos h0]⟩

/-- Helper: if any clause of the list is defective, sequential clause
processing fails (with the first error hit, which may also stem from an
earlier clause). -/
theorem processClausesQ_error_of_defect (regexOk : String → Bool)
    (captureNames stringValues : List String) :
    ∀ (clauses : List (List RawPredStep)) (acc : List (String × String) × List QueryPredicate),
      (∃ cl ∈ clauses, clauseDefect stringValues cl = true) →
      ∃ msg, processClausesQ regexOk captureNames stringValues clauses acc = .error msg
  | [], _, h => by simp at h
  | cl :: rest, acc, h => by
    cases hp : processClauseQ regexOk captureNames stringValues cl acc with
    | error msg => exact ⟨msg, by simp [processClausesQ, hp]⟩
    | ok acc2 =>
      have hrest : ∃ c ∈ rest, clauseDefect stringValues c = true := by
        rcases h with ⟨c, hc, hca⟩
        rcases List.mem_cons.mp hc with rfl | hc2
        · rcases processClauseQ_error_of_defect regexOk captureNames stringValues c acc hca
            with ⟨m, hm⟩
          rw [hp] at hm
          exact absurd hm (by simp)
        · exact ⟨c, hc2, hca⟩
      rcases processClausesQ_error_of_defect regexOk captureNames stringValues rest acc2 hrest
        with ⟨msg, hmsg⟩
      exact ⟨msg, by simp [processClausesQ, hp, hmsg]⟩

/-- C8 (confirmed): whenever some pattern has a predicate clause that starts
with a non-literal, names an unknown function, has the wrong arity for
`eq?`/`match?`/`set!`, passes a non-capture first argument to `eq?` or
`match?`, a capture second argument to `match?`, or a non-literal argument to
`set!`, predicate compilation fails with a `Predicate` error (whose message
identifies the function name, arity or mismatched argument) and no query
value is produced. -/
theorem c8_defective_clause_fails (regexOk : String → Bool)
    (captureNames stringValues : List String) :
    ∀ patternSteps : List (List RawPredStep),
      (∃ steps ∈ patternSteps, ∃ cl ∈ splitOnDone steps, clauseDefect stringValues cl = true) →
      ∃ msg, buildQueryPredicates regexOk captureNames stringValues patternSteps
        = .error (.Predicate msg)
  | [], h => by simp at h
  | steps :: rest, h => by
    cases hp : processClausesQ regexOk captureNames stringValues (splitOnDone steps) ([], [])
      with
    | error msg => exact ⟨msg, by simp [buildQueryPredicates, hp]⟩
    | ok acc =>
      have hrest : ∃ s ∈ rest, ∃ cl ∈ splitOnDone s, clauseDefect stringValues cl = true := by
        rcases h with ⟨s, hs, hcl⟩
        rcases List.mem_cons.mp hs with rfl | hs2
        · rcases processClausesQ_error_of_defect regexOk captureNames stringValues
            (splitOnDone s) ([], []) hcl with ⟨m, hm⟩
          rw [hp] at hm
          exact absurd hm (by simp)
        · exact ⟨s, hs2, hcl⟩
      rcases c8_defective_clause_fails regexOk captureNames stringValues rest hrest
        with ⟨msg, hmsg⟩
      refine ⟨msg, ?_⟩
      rcases acc with ⟨props, preds⟩
      simp [buildQueryPredicates, hp, hmsg]

/-- Witness for `c8_defective_clause_fails`: the clause `(foo? …)` names an
unknown predicate function, so compilation rejects the query. -/
theorem c8_defective_clause_fails_witness :
    ∃ msg, buildQueryPredicates rokTrue ["x"] ["foo?"] [[⟨StepType.strLit, 0⟩]]
      = .error (.Predicate msg) :=
  c8_defective_clause_fails rokTrue ["x"] ["foo?"] [[⟨StepType.strLit, 0⟩]] (by decide)

/-- C2 counterexample: the node's text `[0xFF]` is not valid UTF-8 and the
only candidate transition carries a regex condition (index 0); the regex
engine (`rmFalse`) matches nothing, yet `next_state` accepts the transition
and returns its target 7 — under the claim the transition would be skipped
and the state's default 0 returned.  On invalid UTF-8 the source's
`if let Ok(text) = str::from_utf8(text)` simply falls through, skipping the
regex *check*, not the transition. -/
theorem c2_counterexample :
    isValidUtf8 [255] = false ∧
    (stateAt sheetC2 0).kind_transitions = [(2, [⟨7, none, some 0, none⟩])] ∧
    (∀ t ∈ [(255 : Nat)], rmFalse "x" [t] = false) ∧
    next_state_core sheetC2 rmFalse none 2 [255] 0 0 = 7 ∧
    (7 : Nat) ≠ (stateAt sheetC2 0).default_next_state_id := by decide

/-- C2 (corrected): when the node's source span is not valid UTF-8, a
transition's regex condition is ignored — treated as satisfied rather than as
failed — so acceptance of any transition is decided by the kind and
child-index constraints alone, with no error raised. -/
theorem c2_invalid_utf8_ignores_regex (sheet : PropertySheet)
    (rmatch : String → List Nat → Bool) (nodeKindId : Nat) (text : List Nat)
    (nodeChildIndex : Nat) (t : PropertyTransition)
    (h : isValidUtf8 text = false) :
    acceptsTransition sheet rmatch nodeKindId text nodeChildIndex t
      = (kindConstraintOk nodeKindId t && childConstraintOk nodeChildIndex t) := by
  have hr : regexConstraintOk sheet rmatch text t = true := by
    unfold regexConstraintOk
    cases t.text_regex_index <;> simp [h]
  simp [acceptsTransition, hr]

/-- Witness for `c2_invalid_utf8_ignores_regex` at a concrete input: the
regex-bearing transition of `sheetC2` is accepted on the invalid byte
`0xFF`. -/
theorem c2_invalid_utf8_ignores_regex_witness :
    acceptsTransition sheetC2 rmFalse 2 [255] 0 ⟨7, none, some 0, none⟩
      = (kindConstraintOk 2 ⟨7, none, some 0, none⟩ &&
          childConstraintOk 0 ⟨7, none, some 0, none⟩) :=
  c2_invalid_utf8_ignores_regex sheetC2 rmFalse 2 [255] 0 ⟨7, none, some 0, none⟩ (by decide)

/-- C6 counterexample: the node reports field id 1, the state's field table
has no bucket for id 1, and the candidates are nonetheless taken from the
kind bucket — `next_state` accepts its transition and returns 7, where the
claim (kind bucket used only when the node has *no* field id) would leave no
candidates and return the default 3. -/
theorem c6_counterexample :
    alGet (stateAt sheetC6 0).field_transitions 1 = none ∧
    lookupTransitions (stateAt sheetC6 0) (some 1) 2 = some [⟨7, none, none, none⟩] ∧
    alGet (stateAt sheetC6 0).kind_transitions 2 = some [⟨7, none, none, none⟩] ∧
    next_state_core sheetC6 rmFalse (some 1) 2 [] 0 0 = 7 ∧
    (7 : Nat) ≠ (stateAt sheetC6 0).default_next_state_id := by decide

/-- C6 (corrected): candidate transitions come from the state's field bucket
when the node has a field id *and* that bucket exists; otherwise — when the
node has no field id, or when it has one but the state has no bucket for it —
they come from the state's kind bucket for the node's kind id. -/
theorem c6_bucket_selection (st : PropertyState) (nodeFieldId : Option Nat)
    (nodeKindId : Nat) :
    (∀ f ts, nodeFieldId = some f → alGet st.field_transitions f = some ts →
      lookupTransitions st nodeFieldId nodeKindId = some ts) ∧
    ((nodeFieldId = none ∨ ∃ f, nodeFieldId = some f ∧ alGet st.field_transitions f = none) →
      lookupTransitions st nodeFieldId nodeKindId = alGet st.kind_transitions nodeKindId) := by
  constructor
  · intro f ts hf hts
    simp [lookupTransitions, hf, hts]
  · rintro (hf | ⟨f, hf, hnone⟩)
    · simp [lookupTransitions, hf]
    · simp [lookupTransitions, hf, hnone]

/-- Witness for `c6_bucket_selection` at a concrete input: with field id 1
present on the node but absent from the state's field table, the kind bucket
is selected. -/
theorem c6_bucket_selection_witness :
    lookupTransitions (stateAt sheetC6 0) (some 1) 2
      = alGet (stateAt sheetC6 0).kind_transitions 2 :=
  (c6_bucket_selection (stateAt sheetC6 0) (some 1) 2).2 (Or.inr ⟨1, rfl, by decide⟩)

/-- Helper: the transition scan returns the target of the first transition,
in declared order, whose present constraints all hold. -/
theorem scanTransitions_eq_find (sheet : PropertySheet) (rmatch : String → List Nat → Bool)
    (nodeKindId : Nat) (text : List Nat) (nodeChildIndex : Nat) :
    ∀ ts : List PropertyTransition,
      scanTransitions sheet rmatch nodeKindId text nodeChildIndex ts
        = (ts.find? (acceptsTransition sheet rmatch nodeKindId text nodeChildIndex)).map
            (fun t => t.state_id)
  | [] => rfl
  | t :: rest => by
    by_cases ha : acceptsTransition sheet rmatch nodeKindId text nodeChildIndex t = true
    · simp [scanTransitions, ha, List.find?_cons_of_pos]
    · rw [scanTransitions, if_neg (by simp [ha]),
        List.find?_cons_of_neg _ (by simp [ha]),
        scanTransitions_eq_find sheet rmatch nodeKindId text nodeChildIndex rest]

/-- Helper: bucket lookup followed by the scan equals the first-accepted
search over the bucket's candidate list (empty when the bucket is absent). -/
theorem scanState_eq_find (sheet : PropertySheet) (rmatch : String → List Nat → Bool)
    (nodeFieldId : Option Nat) (nodeKindId : Nat) (text : List Nat) (nodeChildIndex : Nat)
    (st : PropertyState) :
    scanState sheet rmatch nodeFieldId nodeKindId text nodeChildIndex st
      = (((lookupTransitions st nodeFieldId nodeKindId).getD []).find?
          (acceptsTransition sheet rmatch nodeKindId text nodeChildIndex)).map
          (fun t => t.state_id) := by
  unfold scanState
  cases h : lookupTransitions st nodeFieldId nodeKindId with
  | none => simp
  | some ts => simp [scanTransitions_eq_find]

/-- C5 (confirmed): `next_state` searches the current top-of-stack state and
then state 0 (skipping the second search when the current state is state 0);
within a searched candidate list the first transition in declared order whose
present constraints all hold determines the returned state id; and when
nothing matches in either table the *current* state's own
`default_next_state_id` is returned — never state 0's. -/
theorem c5_search_order (sheet : PropertySheet) (rmatch : String → List Nat → Bool)
    (nodeFieldId : Option Nat) (nodeKindId : Nat) (text : List Nat)
    (nodeChildIndex : Nat) (curIdx : Nat) :
    (∀ t, ((lookupTransitions (stateAt sheet curIdx) nodeFieldId nodeKindId).getD []).find?
        (acceptsTransition sheet rmatch nodeKindId text nodeChildIndex) = some t →
      next_state_core sheet rmatch nodeFieldId nodeKindId text nodeChildIndex curIdx
        = t.state_id) ∧
    (curIdx ≠ 0 →
      ((lookupTransitions (stateAt sheet curIdx) nodeFieldId nodeKindId).getD []).find?
        (acceptsTransition sheet rmatch nodeKindId text nodeChildIndex) = none →
      ∀ t, ((lookupTransitions (stateAt sheet 0) nodeFieldId nodeKindId).getD []).find?
        (acceptsTransition sheet rmatch nodeKindId text nodeChildIndex) = some t →
      next_state_core sheet rmatch nodeFieldId nodeKindId text nodeChildIndex curIdx
        = t.state_id) ∧
    (((lookupTransitions (stateAt sheet curIdx) nodeFieldId nodeKindId).getD []).find?
        (acceptsTransition sheet rmatch nodeKindId text nodeChildIndex) = none →
      (curIdx = 0 ∨
        ((lookupTransitions (stateAt sheet 0) nodeFieldId nodeKindId).getD []).find?
          (acceptsTransition sheet rmatch nodeKindId text nodeChildIndex) = none) →
      next_state_core sheet rmatch nodeFieldId nodeKindId text nodeChildIndex curIdx
        = (stateAt sheet curIdx).default_next_state_id) := by
  refine ⟨?_, ?_, ?_⟩
  · intro t ht
    simp only [next_state_core, scanState_eq_find]
    rw [ht]
    simp
  · intro hne hcur t ht
    simp only [next_state_core, scanState_eq_find]
    rw [hcur, ht]
    simp [hne]
  · intro hcur hd
    simp only [next_state_core, scanState_eq_find]
    rw [hcur]
    rcases hd with hd | hd
    · simp [hd]
    · rw [hd]
      simp

/-- Witness for `c5_search_order` at a concrete input: `sheetC6`'s kind-bucket
transition for kind 2 is the first acceptable candidate, and it wins. -/
theorem c5_search_order_witness :
    next_state_core sheetC6 rmFalse none 2 [] 0 0 = 7 :=
  (c5_search_order sheetC6 rmFalse none 2 [] 0 0).1 ⟨7, none, none, none⟩ (by decide)

/-- C4 counterexample: on a fresh cursor a successful `goto_first_child`
leaves the child-index stack at depth + 1 entries but the state stack at
depth + 2 entries (the seed state 0 sits below the root's resolved state), so
the claimed "both stacks have length depth + 1" fails for the state stack. -/
theorem c4_counterexample :
    (TreePropertyCursor.goto_first_child rmFalse cursorC4).2 = true ∧
    (TreePropertyCursor.goto_first_child rmFalse cursorC4).1.depth = 1 ∧
    (TreePropertyCursor.goto_first_child rmFalse cursorC4).1.child_index_stack.length = 2 ∧
    (TreePropertyCursor.goto_first_child rmFalse cursorC4).1.state_stack.length = 3 ∧
    ¬(TreePropertyCursor.goto_first_child rmFalse cursorC4).1.state_stack.length
      = (TreePropertyCursor.goto_first_child rmFalse cursorC4).1.depth + 1 := by
  decide

/-- C4 (corrected): along every sequence of cursor operations the child-index
stack has length depth + 1 while the state stack has length depth + 2 (the
extra entry being the seed state 0 below the root's state): the shape holds
at construction and is preserved by all three moves; and a successful
`goto_first_child` followed by its matching `goto_parent` restores both
stacks (and the position) exactly. -/
theorem c4_stack_shape (rmatch : String → List Nat → Bool) :
    (∀ tree sheet src, stacksOk (TreePropertyCursor.new rmatch tree sheet src)) ∧
    (∀ c, stacksOk c → stacksOk (TreePropertyCursor.goto_first_child rmatch c).1) ∧
    (∀ c, stacksOk c → stacksOk (TreePropertyCursor.goto_next_sibling rmatch c).1) ∧
    (∀ c, stacksOk c → stacksOk (TreePropertyCursor.goto_parent c).1) ∧
    (∀ c, (TreePropertyCursor.goto_first_child rmatch c).2 = true →
      (TreePropertyCursor.goto_parent (TreePropertyCursor.goto_first_child rmatch c).1).2
        = true ∧
      (TreePropertyCursor.goto_parent (TreePropertyCursor.goto_first_child rmatch c).1).1.path
        = c.path ∧
      (TreePropertyCursor.goto_parent
          (TreePropertyCursor.goto_first_child rmatch c).1).1.state_stack
        = c.state_stack ∧
      (TreePropertyCursor.goto_parent
          (TreePropertyCursor.goto_first_child rmatch c).1).1.child_index_stack
        = c.child_index_stack) := by
  refine ⟨?_, ?_, ?_, ?_, ?_⟩
  · intro tree sheet src
    simp [TreePropertyCursor.new, stacksOk, TreePropertyCursor.depth]
  · intro c hc
    unfold TreePropertyCursor.goto_first_child
    by_cases h : 0 < c.entry.2.children.length
    · rw [if_pos h]
      rcases hc with ⟨h1, h2⟩
      simp only [TreePropertyCursor.depth] at h1 h2
      constructor <;>
        simp only [stacksOk, TreePropertyCursor.depth, List.length_cons,
          List.length_append, List.length_singleton, List.length_nil, h1, h2]
    · rw [if_neg h]
      exact hc
  · intro c hc
    unfold TreePropertyCursor.goto_next_sibling
    cases hl : c.path.getLast? with
    | none => exact hc
    | some i =>
      simp only
      by_cases h : i + 1
          < ((descend (none, c.tree) c.path.dropLast).getD (none, c.tree)).2.children.length
      · rw [if_pos h]
        rcases hc with ⟨h1, h2⟩
        have hne : c.path ≠ [] := by
          intro hnil
          rw [hnil] at hl
          simp at hl
        have hlen : 1 ≤ c.path.length := by
          cases hp : c.path with
          | nil => exact absurd hp hne
          | cons a l => simp
        simp only [TreePropertyCursor.depth] at h1 h2
        constructor <;>
          simp only [TreePropertyCursor.depth, List.length_cons, List.length_tail,
            List.length_append, List.length_dropLast, List.length_singleton,
            List.length_nil] <;>
          omega
      · rw [if_neg h]
        exact hc
  · intro c hc
    unfold TreePropertyCursor.goto_parent
    by_cases h : c.path = []
    · rw [if_pos h]
      exact hc
    · rw [if_neg h]
      rcases hc with ⟨h1, h2⟩
      have hlen : 1 ≤ c.path.length := by
        cases hp : c.path with
        | nil => exact absurd hp h
        | cons a l => simp
      simp only [TreePropertyCursor.depth] at h1 h2
      constructor <;>
        simp only [TreePropertyCursor.depth, List.length_tail, List.length_dropLast] <;>
        omega
  · intro c hsucc
    unfold TreePropertyCursor.goto_first_child at hsucc ⊢
    by_cases h : 0 < c.entry.2.children.length
    · rw [if_pos h] at hsucc ⊢
      unfold TreePropertyCursor.goto_parent
      have hne : c.path ++ [0] ≠ [] := by simp
      simp [hne]
    · rw [if_neg h] at hsucc
      simp at hsucc

/-- Witness for `c4_stack_shape` at a concrete input: descending into
`treeC4` and coming back restores the fresh cursor's stacks. -/
theorem c4_stack_shape_witness :
    (TreePropertyCursor.goto_parent
        (TreePropertyCursor.goto_first_child rmFalse cursorC4).1).1.state_stack
      = cursorC4.state_stack ∧
    (TreePropertyCursor.goto_parent
        (TreePropertyCursor.goto_first_child rmFalse cursorC4).1).1.child_index_stack
      = cursorC4.child_index_stack :=
  ⟨((c4_stack_shape rmFalse).2.2.2.2 cursorC4 (by decide)).2.2.1,
    ((c4_stack_shape rmFalse).2.2.2.2 cursorC4 (by decide)).2.2.2⟩

/-- Helper: lookup after a bucket push — the pushed bucket gains the
transition at its end, all others are unchanged. -/
theorem alGet_alPush (t : PropertyTransition) :
    ∀ (m : Buckets) (k k2 : Nat),
      alGet (alPush m k t) k2
        = if k = k2 then some ((alGet m k).getD [] ++ [t]) else alGet m k2
  | [], k, k2 => by
    by_cases h : k = k2 <;> simp [alPush, alGet, h]
  | (k0, v) :: rest, k, k2 => by
    by_cases h0 : k0 = k
    · subst h0
      by_cases h2 : k0 = k2
      · subst h2
        simp [alPush, alGet]
      · simp [alPush, alGet, h2]
    · by_cases h2 : k0 = k2
      · subst h2
        have h0s : ¬k = k0 := fun hh => h0 hh.symm
        simp [alPush, h0, alGet, h0s]
      · have ih := alGet_alPush t rest k k2
        simp [alPush, h0, alGet, h2, ih]

/-- Helper: lookup after pushing onto every bucket. -/
theorem alGet_alPushAll (t : PropertyTransition) :
    ∀ (m : Buckets) (k : Nat),
      alGet (alPushAll m t) k = (alGet m k).map (fun v => v ++ [t])
  | [], k => by simp [alPushAll, alGet]
  | (k0, v) :: rest, k => by
    by_cases h : k0 = k
    · simp [alPushAll, alGet, h]
    · have ih := alGet_alPushAll t rest k
      simp only [alPushAll] at ih
      simp [alPushAll, alGet, h, ih]

/-- Helper: lookup after conditionally instantiating an empty bucket. -/
theorem alGet_alOrInsertEmpty :
    ∀ (m : Buckets) (k k2 : Nat),
      alGet (alOrInsertEmpty m k) k2
        = if k = k2 then some ((alGet m k).getD []) else alGet m k2 := by
  intro m k k2
  unfold alOrInsertEmpty
  cases hm : alGet m k with
  | some v =>
    simp only [hm, Option.isSome_some, if_true]
    by_cases h : k = k2
    · subst h
      simp [hm]
    · simp [h]
  | none =>
    simp only [hm, Option.isSome_none, Bool.false_eq_true, if_false]
    induction m with
    | nil => by_cases h : k = k2 <;> simp [alGet, h]
    | cons e rest ih =>
      rcases e with ⟨k0, v⟩
      simp only [alGet] at hm
      by_cases h0 : k0 = k
      · rw [if_pos h0] at hm
        simp at hm
      · rw [if_neg h0] at hm
        by_cases h2 : k0 = k2
        · subst h2
          have h0s : ¬k = k0 := fun hh => h0 hh.symm
          simp [alGet, h0s]
        · simp only [List.cons_append, alGet, if_neg h2]
          exact ih hm

/-- C10 (confirmed): a transition clause with a kind name but no `"named"`
flag matches no kind id at all — the filter demands
`transition.named == Some(kind_is_named)` and `None` never equals `Some _` —
so processing the clause leaves every kind and field bucket unchanged, and
(when the clause carries no regex literal) succeeds without any effect at
all. -/
theorem c10_unnamed_kind_clause_inert (lang : Language) (regexOk : String → Bool)
    (c : PropertyTransitionJSON) (kn : String) (hkind : c.kind = some kn)
    (hnamed : c.named = none) (kindT fieldT : Buckets) (pats : List String) :
    matchingKinds lang kn c.named = [] ∧
    (∀ kT2 fT2 pats2,
      processClause lang regexOk c (kindT, fieldT, pats) = .ok (kT2, fT2, pats2) →
      kT2 = kindT ∧ fT2 = fieldT) ∧
    (c.text = none → processClause lang regexOk c (kindT, fieldT, pats)
      = .ok (kindT, fieldT, pats)) := by
  have hmk : matchingKinds lang kn c.named = [] := by
    rw [hnamed]
    unfold matchingKinds
    rw [List.filter_eq_nil_iff]
    intro a ha
    simp
  refine ⟨hmk, ?_, ?_⟩
  · intro kT2 fT2 pats2 hok
    unfold processClause at hok
    cases hr : resolveRegexIndex regexOk c.text pats with
    | error e => rw [hr] at hok; exact absurd hok (by simp)
    | ok r =>
      rw [hr] at hok
      rcases r with ⟨idx, pats3⟩
      rw [hkind] at hok
      simp only [hmk, List.foldl_nil] at hok
      rcases hok with ⟨rfl, rfl, rfl⟩
      exact ⟨rfl, rfl⟩
  · intro htext
    unfold processClause
    rw [htext]
    simp only [resolveRegexIndex, hkind, hmk, List.foldl_nil]

/-- Witness for `c10_unnamed_kind_clause_inert` at a concrete input. -/
theorem c10_unnamed_kind_clause_inert_witness :
    matchingKinds langC3 "k" clauseC10.named = [] ∧
    processClause langC3 rokTrue clauseC10 ([], [], []) = .ok ([], [], []) :=
  ⟨(c10_unnamed_kind_clause_inert langC3 rokTrue clauseC10 "k" rfl rfl [] [] []).1,
    (c10_unnamed_kind_clause_inert langC3 rokTrue clauseC10 "k" rfl rfl [] [] []).2.2 rfl⟩

/-- Helper: the regex-resolution step grows the pattern list by at most the
clause's own literal, keeps it duplicate-free, and returns an in-bounds
index. -/
theorem resolveRegexIndex_spec (regexOk : String → Bool) (text : Option String)
    (pats : List String) (idx : Option Nat) (pats2 : List String)
    (h : resolveRegexIndex regexOk text pats = .ok (idx, pats2)) :
    (∀ q, q ∈ pats2 ↔ (q ∈ pats ∨ text = some q)) ∧
    (pats.Nodup → pats2.Nodup) ∧
    pats.length ≤ pats2.length ∧
    (∀ i, idx = some i → i < pats2.length) := by
  cases text with
  | none =>
    simp only [resolveRegexIndex] at h
    rcases h with ⟨rfl, rfl⟩
    refine ⟨by simp, fun hn => hn, le_refl _, by simp⟩
  | some p =>
    simp only [resolveRegexIndex] at h
    by_cases hp : p ∈ pats
    · rw [if_pos hp] at h
      rcases h with ⟨rfl, rfl⟩
      refine ⟨?_, fun hn => hn, le_refl _, ?_⟩
      · intro q
        constructor
        · intro hq
          exact Or.inl hq
        · rintro (hq | hq)
          · exact hq
          · injection hq with hq
            exact hq ▸ hp
      · intro i hi
        injection hi with hi
        rw [← hi]
        exact List.indexOf_lt_length.mpr hp
    · rw [if_neg hp] at h
      by_cases hr : regexOk p = true
      · rw [if_pos hr] at h
        rcases h with ⟨rfl, rfl⟩
        refine ⟨?_, ?_, by simp, ?_⟩
        · intro q
          simp only [List.mem_append, List.mem_singleton]
          constructor
          · rintro (hq | rfl)
            · exact Or.inl hq
            · exact Or.inr rfl
          · rintro (hq | hq)
            · exact Or.inl hq
            · injection hq with hq
              exact Or.inr hq.symm
        · intro hn
          rw [List.nodup_append]
          exact ⟨hn, List.nodup_singleton p, by simpa [List.disjoint_singleton] using hp⟩
        · intro i hi
          injection hi with hi
          simp [← hi]
      · rw [if_neg hr] at h
        exact absurd h (by simp)

/-- Helper: a transition found in a bucket after `alPush` was already there
or is the pushed one. -/
theorem mem_of_alPush (t : PropertyTransition) :
    ∀ (m : Buckets) (k : Nat), ∀ e ∈ alPush m k t, ∀ t2 ∈ e.2,
      (∃ e0 ∈ m, t2 ∈ e0.2) ∨ t2 = t
  | [], k, e, he, t2, ht2 => by
    simp only [alPush, List.mem_singleton] at he
    subst he
    simp only [List.mem_singleton] at ht2
    exact Or.inr ht2
  | (k0, v) :: rest, k, e, he, t2, ht2 => by
    by_cases h0 : k0 = k
    · rw [alPush, if_pos h0] at he
      rcases List.mem_cons.mp he with rfl | he2
      · rcases List.mem_append.mp ht2 with hv | hv
        · exact Or.inl ⟨(k0, v), List.mem_cons_self _ _, hv⟩
        · simp only [List.mem_singleton] at hv
          exact Or.inr hv
      · exact Or.inl ⟨e, List.mem_cons_of_mem _ he2, ht2⟩
    · rw [alPush, if_neg h0] at he
      rcases List.mem_cons.mp he with rfl | he2
      · exact Or.inl ⟨(k0, v), List.mem_cons_self _ _, ht2⟩
      · rcases mem_of_alPush t rest k e he2 t2 ht2 with ⟨e0, he0, ht0⟩ | rfl
        · exact Or.inl ⟨e0, List.mem_cons_of_mem _ he0, ht0⟩
        · exact Or.inr rfl

/-- Helper: a transition found in a bucket after `alPushAll` was already
there or is the pushed one. -/
theorem mem_of_alPushAll (t : PropertyTransition) (m : Buckets) :
    ∀ e ∈ alPushAll m t, ∀ t2 ∈ e.2, (∃ e0 ∈ m, t2 ∈ e0.2) ∨ t2 = t := by
  intro e he t2 ht2
  rcases List.mem_map.mp he with ⟨e0, he0, rfl⟩
  rcases List.mem_append.mp ht2 with hv | hv
  · exact Or.inl ⟨e0, he0, hv⟩
  · simp only [List.mem_singleton] at hv
    exact Or.inr hv

/-- Helper: index-validity is preserved when the pattern list only grows. -/
theorem bucketsIdxOk_mono (pats pats2 : List String) (m : Buckets)
    (hlen : pats.length ≤ pats2.length) (h : bucketsIdxOk pats m) :
    bucketsIdxOk pats2 m := by
  intro e he t ht i hi
  exact lt_of_lt_of_le (h e he t ht i hi) hlen

/-- Helper: index-validity of both bucket maps is preserved by one
registration step. -/
theorem registerKind_step_idxOk (pats : List String) (fieldId : Option Nat)
    (sid : Nat) (ci : Option Nat) (idx : Option Nat) (kid : Nat) (kT fT : Buckets)
    (hidx : ∀ i, idx = some i → i < pats.length)
    (hk : bucketsIdxOk pats kT) (hf : bucketsIdxOk pats fT) :
    bucketsIdxOk pats (registerKind fieldId sid ci idx (kT, fT) kid).1 ∧
    bucketsIdxOk pats (registerKind fieldId sid ci idx (kT, fT) kid).2 := by
  cases fieldId with
  | some f =>
    constructor
    · simpa [registerKind] using hk
    · simp only [registerKind]
      intro e he t ht i hi
      rcases mem_of_alPush _ fT f e he t ht with ⟨e0, he0, ht0⟩ | rfl
      · exact hf e0 he0 t ht0 i hi
      · exact hidx i hi
  | none =>
    constructor
    · simp only [registerKind]
      intro e he t ht i hi
      rcases mem_of_alPush _ kT kid e he t ht with ⟨e0, he0, ht0⟩ | rfl
      · exact hk e0 he0 t ht0 i hi
      · exact hidx i hi
    · simp only [registerKind]
      intro e he t ht i hi
      rcases mem_of_alPushAll _ fT e he t ht with ⟨e0, he0, ht0⟩ | rfl
      · exact hf e0 he0 t ht0 i hi
      · exact hidx i hi

/-- Helper: index-validity of both bucket maps is preserved across the
per-kind registration loop of one clause. -/
theorem registerKind_fold_idxOk (pats : List String) (fieldId : Option Nat)
    (sid : Nat) (ci : Option Nat) (idx : Option Nat)
    (hidx : ∀ i, idx = some i → i < pats.length) :
    ∀ (kinds : List Nat) (kT fT : Buckets), bucketsIdxOk pats kT → bucketsIdxOk pats fT →
      bucketsIdxOk pats (kinds.foldl (registerKind fieldId sid ci idx) (kT, fT)).1 ∧
      bucketsIdxOk pats (kinds.foldl (registerKind fieldId sid ci idx) (kT, fT)).2
  | [], kT, fT, hk, hf => ⟨hk, hf⟩
  | kid :: kinds, kT, fT, hk, hf => by
    rw [List.foldl_cons]
    have hstep := registerKind_step_idxOk pats fieldId sid ci idx kid kT fT hidx hk hf
    have hrec := registerKind_fold_idxOk pats fieldId sid ci idx hidx kinds
      (registerKind fieldId sid ci idx (kT, fT) kid).1
      (registerKind fieldId sid ci idx (kT, fT) kid).2 hstep.1 hstep.2
    simpa using hrec

/-- Helper: effect of processing one clause on the regex pattern list and on
index-validity of the buckets. -/
theorem processClause_spec (lang : Language) (regexOk : String → Bool)
    (c : PropertyTransitionJSON) (kindT fieldT : Buckets) (pats : List String)
    (kT2 fT2 : Buckets) (pats2 : List String)
    (h : processClause lang regexOk c (kindT, fieldT, pats) = .ok (kT2, fT2, pats2)) :
    (∀ q, q ∈ pats2 ↔ (q ∈ pats ∨ c.text = some q)) ∧
    (pats.Nodup → pats2.Nodup) ∧
    pats.length ≤ pats2.length ∧
    (bucketsIdxOk pats kindT → bucketsIdxOk pats fieldT →
      bucketsIdxOk pats2 kT2 ∧ bucketsIdxOk pats2 fT2) := by
  unfold processClause at h
  cases hr : resolveRegexIndex regexOk c.text pats with
  | error e =>
    rw [hr] at h
    exact absurd h (by simp)
  | ok r =>
    rw [hr] at h
    rcases r with ⟨idx, pats3⟩
    rcases resolveRegexIndex_spec regexOk c.text pats idx pats3 hr with
      ⟨hmem, hnodup, hlen, hidx⟩
    cases hk : c.kind with
    | some kindName =>
      rw [hk] at h
      simp only at h
      rcases h with ⟨rfl, rfl, rfl⟩
      refine ⟨hmem, hnodup, hlen, ?_⟩
      intro hbk hbf
      exact registerKind_fold_idxOk pats2 (c.field.bind lang.field_id_for_name)
        c.state_id c.index idx hidx (matchingKinds lang kindName c.named) kindT fieldT
        (bucketsIdxOk_mono pats pats2 kindT hlen hbk)
        (bucketsIdxOk_mono pats pats2 fieldT hlen hbf)
    | none =>
      rw [hk] at h
      cases hf : c.field.bind lang.field_id_for_name with
      | some f =>
        rw [hf] at h
        simp only at h
        rcases h with ⟨rfl, rfl, rfl⟩
        refine ⟨hmem, hnodup, hlen, ?_⟩
        intro hbk hbf
        refine ⟨bucketsIdxOk_mono pats pats2 kindT hlen hbk, ?_⟩
        intro e he t ht i hi
        rcases mem_of_alPush _ fieldT f e he t ht with ⟨e0, he0, ht0⟩ | rfl
        · exact lt_of_lt_of_le (hbf e0 he0 t ht0 i hi) hlen
        · exact hidx i hi
      | none =>
        rw [hf] at h
        simp only at h
        rcases h with ⟨rfl, rfl, rfl⟩
        refine ⟨hmem, hnodup, hlen, ?_⟩
        intro hbk hbf
        exact ⟨bucketsIdxOk_mono pats pats2 kindT hlen hbk,
          bucketsIdxOk_mono pats pats2 fieldT hlen hbf⟩

/-- Helper: effect of processing a whole clause list on the pattern list and
on index-validity of the buckets. -/
theorem processClauses_spec (lang : Language) (regexOk : String → Bool) :
    ∀ (cs : List PropertyTransitionJSON) (kindT fieldT : Buckets) (pats : List String)
      (kT2 fT2 : Buckets) (pats2 : List String),
      processClauses lang regexOk cs (kindT, fieldT, pats) = .ok (kT2, fT2, pats2) →
      (∀ q, q ∈ pats2 ↔ (q ∈ pats ∨ ∃ c ∈ cs, c.text = some q)) ∧
      (pats.Nodup → pats2.Nodup) ∧
      pats.length ≤ pats2.length ∧
      (bucketsIdxOk pats kindT → bucketsIdxOk pats fieldT →
        bucketsIdxOk pats2 kT2 ∧ bucketsIdxOk pats2 fT2)
  | [], kindT, fieldT, pats, kT2, fT2, pats2, h => by
    simp only [processClauses] at h
    rcases h with ⟨rfl, rfl, rfl⟩
    exact ⟨by simp, fun hn => hn, le_refl _, fun hk hf => ⟨hk, hf⟩⟩
  | c :: cs, kindT, fieldT, pats, kT2, fT2, pats2, h => by
    rw [processClauses] at h
    cases hc : processClause lang regexOk c (kindT, fieldT, pats) with
    | error e =>
      rw [hc] at h
      exact absurd h (by simp)
    | ok acc1 =>
      rw [hc] at h
      rcases acc1 with ⟨kT1, fT1, pats1⟩
      rcases processClause_spec lang regexOk c kindT fieldT pats kT1 fT1 pats1 hc with
        ⟨hmem1, hnodup1, hlen1, hbuck1⟩
      rcases processClauses_spec lang regexOk cs kT1 fT1 pats1 kT2 fT2 pats2 h with
        ⟨hmem2, hnodup2, hlen2, hbuck2⟩
      refine ⟨?_, fun hn => hnodup2 (hnodup1 hn), le_trans hlen1 hlen2, ?_⟩
      · intro q
        rw [hmem2 q]
        constructor
        · rintro (hq | ⟨c2, hc2, ht2⟩)
          · rcases (hmem1 q).mp hq with hq2 | hq2
            · exact Or.inl hq2
            · exact Or.inr ⟨c, List.mem_cons_self _ _, hq2⟩
          · exact Or.inr ⟨c2, List.mem_cons_of_mem _ hc2, ht2⟩
        · rintro (hq | ⟨c2, hc2, ht2⟩)
          · exact Or.inl ((hmem1 q).mpr (Or.inl hq))
          · rcases List.mem_cons.mp hc2 with rfl | hc3
            · exact Or.inl ((hmem1 q).mpr (Or.inr ht2))
            · exact Or.inr ⟨c2, hc3, ht2⟩
      · intro hk hf
        rcases hbuck1 hk hf with ⟨hk1, hf1⟩
        exact hbuck2 hk1 hf1

/-- Helper: the first pass only ever creates empty buckets, so with an empty
initial map the result holds no transitions at all. -/
theorem prepassFields_no_transitions (lang : Language) :
    ∀ (ts : List PropertyTransitionJSON) (init : Buckets),
      (∀ e ∈ init, e.2 = []) → ∀ e ∈ prepassFields lang ts init, e.2 = []
  | [], init, hinit => hinit
  | t :: ts, init, hinit => by
    rw [prepassFields, List.foldl_cons]
    cases hf : t.field.bind lang.field_id_for_name with
    | none =>
      intro e he
      exact prepassFields_no_transitions lang ts init hinit e he
    | some f =>
      intro e he
      refine prepassFields_no_transitions lang ts (alOrInsertEmpty init f) ?_ e he
      intro e2 he2
      unfold alOrInsertEmpty at he2
      by_cases hi : (alGet init f).isSome
      · rw [if_pos hi] at he2
        exact hinit e2 he2
      · rw [if_neg hi] at he2
        rcases List.mem_append.mp he2 with h2 | h2
        · exact hinit e2 h2
        · simp only [List.mem_singleton] at h2
          rw [h2]

/-- Helper: effect of compiling one state on the pattern list and
index-validity of the resulting state's buckets. -/
theorem processState_spec (lang : Language) (regexOk : String → Bool)
    (st : PropertyStateJSON) (pats : List String) (ps : PropertyState)
    (pats2 : List String)
    (h : processState lang regexOk st pats = .ok (ps, pats2)) :
    (∀ q, q ∈ pats2 ↔ (q ∈ pats ∨ ∃ c ∈ st.transitions, c.text = some q)) ∧
    (pats.Nodup → pats2.Nodup) ∧
    pats.length ≤ pats2.length ∧
    (bucketsIdxOk pats2 ps.kind_transitions ∧ bucketsIdxOk pats2 ps.field_transitions) := by
  unfold processState at h
  cases hc : processClauses lang regexOk st.transitions
      ([], prepassFields lang st.transitions [], pats) with
  | error e =>
    rw [hc] at h
    exact absurd h (by simp)
  | ok acc =>
    rw [hc] at h
    rcases acc with ⟨kT, fT, patsF⟩
    simp only at h
    rcases h with ⟨rfl, rfl⟩
    rcases processClauses_spec lang regexOk st.transitions [] (prepassFields lang st.transitions [])
        pats kT fT pats2 hc with ⟨hmem, hnodup, hlen, hbuck⟩
    refine ⟨hmem, hnodup, hlen, ?_⟩
    have hk0 : bucketsIdxOk pats ([] : Buckets) := by
      intro e he
      simp at he
    have hf0 : bucketsIdxOk pats (prepassFields lang st.transitions []) := by
      intro e he t ht i hi
      have := prepassFields_no_transitions lang st.transitions [] (by simp) e he
      rw [this] at ht
      simp at ht
    exact hbuck hk0 hf0

/-- Helper: effect of compiling a list of states, threading the pattern
list. -/
theorem compileStates_spec (lang : Language) (regexOk : String → Bool) :
    ∀ (sts : List PropertyStateJSON) (pats : List String)
      (statesOut : List PropertyState) (pats2 : List String),
      compileStates lang regexOk sts pats = .ok (statesOut, pats2) →
      (∀ q, q ∈ pats2 ↔
        (q ∈ pats ∨ ∃ st ∈ sts, ∃ c ∈ st.transitions, c.text = some q)) ∧
      (pats.Nodup → pats2.Nodup) ∧
      pats.length ≤ pats2.length ∧
      (∀ s ∈ statesOut,
        bucketsIdxOk pats2 s.kind_transitions ∧ bucketsIdxOk pats2 s.field_transitions)
  | [], pats, statesOut, pats2, h => by
    simp only [compileStates] at h
    rcases h with ⟨rfl, rfl⟩
    exact ⟨by simp, fun hn => hn, le_refl _, by simp⟩
  | st :: sts, pats, statesOut, pats2, h => by
    rw [compileStates] at h
    cases hs : processState lang regexOk st pats with
    | error e =>
      rw [hs] at h
      exact absurd h (by simp)
    | ok r1 =>
      rw [hs] at h
      rcases r1 with ⟨ps, pats1⟩
      simp only at h
      cases hrest : compileStates lang regexOk sts pats1 with
      | error e =>
        rw [hrest] at h
        exact absurd h (by simp)
      | ok r2 =>
        rw [hrest] at h
        rcases r2 with ⟨states1, patsR⟩
        simp only at h
        rcases h with ⟨rfl, rfl⟩
        rcases processState_spec lang regexOk st pats ps pats1 hs with
          ⟨hmem1, hnodup1, hlen1, hbuck1⟩
        rcases compileStates_spec lang regexOk sts pats1 states1 pats2 hrest with
          ⟨hmem2, hnodup2, hlen2, hbuck2⟩
        refine ⟨?_, fun hn => hnodup2 (hnodup1 hn), le_trans hlen1 hlen2, ?_⟩
        · intro q
          rw [hmem2 q]
          constructor
          · rintro (hq | ⟨s2, hs2, hc2⟩)
            · rcases (hmem1 q).mp hq with hq2 | hq2
              · exact Or.inl hq2
              · exact Or.inr ⟨st, List.mem_cons_self _ _, hq2⟩
            · exact Or.inr ⟨s2, List.mem_cons_of_mem _ hs2, hc2⟩
          · rintro (hq | ⟨s2, hs2, hc2⟩)
            · exact Or.inl ((hmem1 q).mpr (Or.inl hq))
            · rcases List.mem_cons.mp hs2 with rfl | hs3
              · exact Or.inl ((hmem1 q).mpr (Or.inr hc2))
              · exact Or.inr ⟨s2, hs3, hc2⟩
        · intro s hsmem
          rcases List.mem_cons.mp hsmem with rfl | hs3
          · exact ⟨bucketsIdxOk_mono pats1 pats2 _ hlen2 hbuck1.1,
              bucketsIdxOk_mono pats1 pats2 _ hlen2 hbuck1.2⟩
          · exact hbuck2 s hs3

/-- Helper: membership in a compiled state's transition collection means
membership in one of its buckets. -/
theorem mem_stateTransitions (s : PropertyState) (t : PropertyTransition)
    (h : t ∈ stateTransitions s) :
    (∃ e ∈ s.field_transitions, t ∈ e.2) ∨ (∃ e ∈ s.kind_transitions, t ∈ e.2) := by
  unfold stateTransitions at h
  rcases List.mem_append.mp h with h2 | h2
  · rcases List.mem_flatten.mp h2 with ⟨l, hl, htl⟩
    rcases List.mem_map.mp hl with ⟨e, he, rfl⟩
    exact Or.inl ⟨e, he, htl⟩
  · rcases List.mem_flatten.mp h2 with ⟨l, hl, htl⟩
    rcases List.mem_map.mp hl with ⟨e, he, rfl⟩
    exact Or.inr ⟨e, he, htl⟩

/-- C9 (confirmed): a successfully compiled sheet stores exactly one compiled
regex per distinct literal pattern appearing among its clauses — the compiled
list is duplicate-free and its members are exactly the clause literals — and
every stored regex reference is an in-bounds index; consequently any two
transitions whose referenced pattern entries are equal reference the *same*
index. -/
theorem c9_regex_dedup (lang : Language) (regexOk : String → Bool)
    (input : PropertySheetJSON) (sheet : PropertySheet)
    (h : compileSheet lang regexOk input = .ok sheet) :
    sheet.text_regexes.Nodup ∧
    (∀ p, p ∈ sheet.text_regexes ↔
      ∃ st ∈ input.states, ∃ c ∈ st.transitions, c.text = some p) ∧
    (∀ s ∈ sheet.states, ∀ t ∈ stateTransitions s, ∀ i, t.text_regex_index = some i →
      i < sheet.text_regexes.length) ∧
    (∀ i j, i < sheet.text_regexes.length → j < sheet.text_regexes.length →
      sheet.text_regexes[i]? = sheet.text_regexes[j]? → i = j) := by
  unfold compileSheet at h
  cases hc : compileStates lang regexOk input.states [] with
  | error e =>
    rw [hc] at h
    exact absurd h (by simp)
  | ok r =>
    rw [hc] at h
    rcases r with ⟨statesOut, pats⟩
    simp only at h
    rcases h with ⟨rfl⟩
    rcases compileStates_spec lang regexOk input.states [] statesOut pats hc with
      ⟨hmem, hnodup, _, hbuck⟩
    have hnd : pats.Nodup := hnodup List.nodup_nil
    refine ⟨hnd, ?_, ?_, ?_⟩
    · intro p
      rw [hmem p]
      simp
    · intro s hs t ht i hi
      rcases mem_stateTransitions s t ht with ⟨e, he, hte⟩ | ⟨e, he, hte⟩
      · exact (hbuck s hs).2 e he t hte i hi
      · exact (hbuck s hs).1 e he t hte i hi
    · intro i j hi hj hij
      exact List.getElem?_inj hi hnd hij

/-- Witness for `c9_regex_dedup` at a concrete input: `inputC9` carries the
literal `"ab"` twice and `"cd"` once, and the compiled sheet `sheetC9` stores
each exactly once. -/
theorem c9_regex_dedup_witness :
    sheetC9.text_regexes.Nodup ∧ sheetC9.text_regexes = ["ab", "cd"] :=
  ⟨(c9_regex_dedup langC3 rokTrue inputC9 sheetC9 (by rfl)).1, by decide⟩

/-- C3 counterexample: in `stC3` the kind-only clause (targeting state 5)
comes *before* the only clause naming field `"f"`, so under the claim it must
not be replicated into that field's bucket; compiled, the field bucket for id
1 nonetheless opens with the kind-filtered replica of the kind-only clause —
the first pass pre-instantiates the buckets of *all* clauses of the state
before any clause is processed. -/
theorem c3_counterexample :
    stC3.transitions = [clauseKindOnly, clauseFieldOnly] ∧
    clauseKindOnly.field = none ∧ clauseFieldOnly.field = some "f" ∧
    processState langC3 rokTrue stC3 []
      = .ok (⟨[(1, [⟨5, none, none, some 0⟩, ⟨6, none, none, none⟩])],
          [(0, [⟨5, none, none, none⟩])], 0, 0⟩, []) :=
  ⟨by decide, by decide, by decide, by rfl⟩

/-- Helper: `bucketsGrow` is reflexive. -/
theorem bucketsGrow_refl (m : Buckets) : bucketsGrow m m := by
  intro f b hb
  exact ⟨[], by simpa using hb⟩

/-- Helper: `bucketsGrow` is transitive. -/
theorem bucketsGrow_trans (m1 m2 m3 : Buckets) (h1 : bucketsGrow m1 m2)
    (h2 : bucketsGrow m2 m3) : bucketsGrow m1 m3 := by
  intro f b hb
  rcases h1 f b hb with ⟨x, hx⟩
  rcases h2 f (b ++ x) hx with ⟨y, hy⟩
  exact ⟨x ++ y, by simpa [List.append_assoc] using hy⟩

/-- Helper: pushing one transition only grows buckets. -/
theorem bucketsGrow_alPush (m : Buckets) (k : Nat) (t : PropertyTransition) :
    bucketsGrow m (alPush m k t) := by
  intro f b hb
  rw [alGet_alPush]
  by_cases h : k = f
  · exact ⟨[t], by simp [h, hb]⟩
  · exact ⟨[], by simp [h, hb]⟩

/-- Helper: pushing onto every bucket only grows buckets. -/
theorem bucketsGrow_alPushAll (m : Buckets) (t : PropertyTransition) :
    bucketsGrow m (alPushAll m t) := by
  intro f b hb
  exact ⟨[t], by rw [alGet_alPushAll, hb]; rfl⟩

/-- Helper: membership in a bucket is preserved under growth. -/
theorem mem_bucket_of_grow (m m2 : Buckets) (k : Nat) (t : PropertyTransition)
    (hg : bucketsGrow m m2) (ht : t ∈ (alGet m k).getD []) :
    t ∈ (alGet m2 k).getD [] := by
  cases hb : alGet m k with
  | none => rw [hb] at ht; simp at ht
  | some b =>
    rw [hb] at ht
    rcases hg k b hb with ⟨b2, hb2⟩
    rw [hb2]
    simp only [Option.getD_some]
    exact List.mem_append.mpr (Or.inl ht)

/-- Helper: one registration step only grows both bucket maps. -/
theorem registerKind_step_grow (fieldId : Option Nat) (sid : Nat) (ci idx : Option Nat)
    (kid : Nat) (kT fT : Buckets) :
    bucketsGrow kT (registerKind fieldId sid ci idx (kT, fT) kid).1 ∧
    bucketsGrow fT (registerKind fieldId sid ci idx (kT, fT) kid).2 := by
  cases fieldId with
  | some f => exact ⟨bucketsGrow_refl kT, bucketsGrow_alPush fT f _⟩
  | none => exact ⟨bucketsGrow_alPush kT kid _, bucketsGrow_alPushAll fT _⟩

/-- Helper: the per-kind registration loop only grows both bucket maps. -/
theorem registerKind_fold_grow (fieldId : Option Nat) (sid : Nat) (ci idx : Option Nat) :
    ∀ (kinds : List Nat) (kT fT : Buckets),
      bucketsGrow kT (kinds.foldl (registerKind fieldId sid ci idx) (kT, fT)).1 ∧
      bucketsGrow fT (kinds.foldl (registerKind fieldId sid ci idx) (kT, fT)).2
  | [], kT, fT => ⟨bucketsGrow_refl kT, bucketsGrow_refl fT⟩
  | kid :: kinds, kT, fT => by
    rw [List.foldl_cons]
    have hstep := registerKind_step_grow fieldId sid ci idx kid kT fT
    have hrec := registerKind_fold_grow fieldId sid ci idx kinds
      (registerKind fieldId sid ci idx (kT, fT) kid).1
      (registerKind fieldId sid ci idx (kT, fT) kid).2
    constructor
    · refine bucketsGrow_trans _ _ _ hstep.1 ?_
      simpa using hrec.1
    · refine bucketsGrow_trans _ _ _ hstep.2 ?_
      simpa using hrec.2

/-- Helper: processing one clause only grows both bucket maps. -/
theorem processClause_grow (lang : Language) (regexOk : String → Bool)
    (c : PropertyTransitionJSON) (kindT fieldT : Buckets) (pats : List String)
    (kT2 fT2 : Buckets) (pats2 : List String)
    (h : processClause lang regexOk c (kindT, fieldT, pats) = .ok (kT2, fT2, pats2)) :
    bucketsGrow kindT kT2 ∧ bucketsGrow fieldT fT2 := by
  unfold processClause at h
  cases hr : resolveRegexIndex regexOk c.text pats with
  | error e =>
    rw [hr] at h
    exact absurd h (by simp)
  | ok r =>
    rw [hr] at h
    rcases r with ⟨idx, pats3⟩
    cases hk : c.kind with
    | some kindName =>
      rw [hk] at h
      simp only at h
      rcases h with ⟨rfl, rfl, rfl⟩
      exact registerKind_fold_grow (c.field.bind lang.field_id_for_name)
        c.state_id c.index idx (matchingKinds lang kindName c.named) kindT fieldT
    | none =>
      rw [hk] at h
      cases hf : c.field.bind lang.field_id_for_name with
      | some f =>
        rw [hf] at h
        simp only at h
        rcases h with ⟨rfl, rfl, rfl⟩
        exact ⟨bucketsGrow_refl kindT, bucketsGrow_alPush fieldT f _⟩
      | none =>
        rw [hf] at h
        simp only at h
        rcases h with ⟨rfl, rfl, rfl⟩
        exact ⟨bucketsGrow_refl kindT, bucketsGrow_refl fieldT⟩

/-- Helper: processing a clause list only grows both bucket maps. -/
theorem processClauses_grow (lang : Language) (regexOk : String → Bool) :
    ∀ (cs : List PropertyTransitionJSON) (kindT fieldT : Buckets) (pats : List String)
      (kT2 fT2 : Buckets) (pats2 : List String),
      processClauses lang regexOk cs (kindT, fieldT, pats) = .ok (kT2, fT2, pats2) →
      bucketsGrow kindT kT2 ∧ bucketsGrow fieldT fT2
  | [], kindT, fieldT, pats, kT2, fT2, pats2, h => by
    simp only [processClauses] at h
    rcases h with ⟨rfl, rfl, rfl⟩
    exact ⟨bucketsGrow_refl kindT, bucketsGrow_refl fieldT⟩
  | c :: cs, kindT, fieldT, pats, kT2, fT2, pats2, h => by
    rw [processClauses] at h
    cases hc : processClause lang regexOk c (kindT, fieldT, pats) with
    | error e =>
      rw [hc] at h
      exact absurd h (by simp)
    | ok acc1 =>
      rw [hc] at h
      rcases acc1 with ⟨kT1, fT1, pats1⟩
      rcases processClause_grow lang regexOk c kindT fieldT pats kT1 fT1 pats1 hc with
        ⟨hg1, hg2⟩
      rcases processClauses_grow lang regexOk cs kT1 fT1 pats1 kT2 fT2 pats2 h with
        ⟨hg3, hg4⟩
      exact ⟨bucketsGrow_trans _ _ _ hg1 hg3, bucketsGrow_trans _ _ _ hg2 hg4⟩

/-- Helper: splitting sequential clause processing at any point. -/
theorem processClauses_append (lang : Language) (regexOk : String → Bool) :
    ∀ (xs ys : List PropertyTransitionJSON) (acc r : Buckets × Buckets × List String),
      processClauses lang regexOk (xs ++ ys) acc = .ok r →
      ∃ mid, processClauses lang regexOk xs acc = .ok mid ∧
        processClauses lang regexOk ys mid = .ok r
  | [], ys, acc, r, h => ⟨acc, rfl, h⟩
  | c :: xs, ys, acc, r, h => by
    rw [List.cons_append, processClauses] at h
    cases hc : processClause lang regexOk c acc with
    | error e =>
      rw [hc] at h
      exact absurd h (by simp)
    | ok acc1 =>
      rw [hc] at h
      rcases processClauses_append lang regexOk xs ys acc1 r h with ⟨mid, h1, h2⟩
      refine ⟨mid, ?_, h2⟩
      rw [processClauses, hc]
      exact h1

/-- Helper: the per-kind registration loop of a kind-only clause appends the
kind-filtered replica to *every* existing field bucket (one replica per
matching kind id, in kind-id order) and records the unfiltered transition in
each matching kind bucket. -/
theorem registerKind_fold_replicate (sid : Nat) (ci idx : Option Nat) :
    ∀ (kinds : List Nat) (kT fT : Buckets),
      (∀ f b, alGet fT f = some b →
        alGet (kinds.foldl (registerKind none sid ci idx) (kT, fT)).2 f
          = some (b ++ kinds.map (fun k => (⟨sid, ci, idx, some k⟩ : PropertyTransition)))) ∧
      (∀ k ∈ kinds, (⟨sid, ci, idx, none⟩ : PropertyTransition)
        ∈ (alGet (kinds.foldl (registerKind none sid ci idx) (kT, fT)).1 k).getD [])
  | [], kT, fT => by
    constructor
    · intro f b hb
      simpa using hb
    · intro k hk
      simp at hk
  | kid :: kinds, kT, fT => by
    rw [List.foldl_cons]
    have hstep : registerKind none sid ci idx (kT, fT) kid
        = (alPush kT kid ⟨sid, ci, idx, none⟩,
            alPushAll fT ⟨sid, ci, idx, some kid⟩) := rfl
    rw [hstep]
    have hrec := registerKind_fold_replicate sid ci idx kinds
      (alPush kT kid ⟨sid, ci, idx, none⟩) (alPushAll fT ⟨sid, ci, idx, some kid⟩)
    constructor
    · intro f b hb
      have hb1 : alGet (alPushAll fT ⟨sid, ci, idx, some kid⟩) f
          = some (b ++ [⟨sid, ci, idx, some kid⟩]) := by
        rw [alGet_alPushAll, hb]
        rfl
      rw [hrec.1 f (b ++ [⟨sid, ci, idx, some kid⟩]) hb1]
      simp
    · intro k hk
      rcases List.mem_cons.mp hk with rfl | hk2
      · have hmem : (⟨sid, ci, idx, none⟩ : PropertyTransition)
            ∈ (alGet (alPush kT k ⟨sid, ci, idx, none⟩) k).getD [] := by
          rw [alGet_alPush]
          simp
        exact mem_bucket_of_grow _ _ k _
          (registerKind_fold_grow none sid ci idx kinds _ _).1 hmem
      · exact hrec.2 k hk2

/-- Helper: unfolding the first pass one clause at a time. -/
theorem prepassFields_cons (lang : Language) (t : PropertyTransitionJSON)
    (ts : List PropertyTransitionJSON) (init : Buckets) :
    prepassFields lang (t :: ts) init
      = prepassFields lang ts
          (match t.field.bind lang.field_id_for_name with
            | some f => alOrInsertEmpty init f
            | none => init) := rfl

/-- Helper: after the first pass every field id resolvable from any clause of
the state — earlier or later — has a bucket. -/
theorem prepassFields_isSome (lang : Language) :
    ∀ (ts : List PropertyTransitionJSON) (init : Buckets) (f : Nat),
      (f ∈ resolvedFields lang ts ∨ (alGet init f).isSome = true) →
      (alGet (prepassFields lang ts init) f).isSome = true
  | [], init, f, h => by
    rcases h with h | h
    · simp [resolvedFields] at h
    · simpa [prepassFields] using h
  | t :: ts, init, f, h => by
    rw [prepassFields_cons]
    cases hres : t.field.bind lang.field_id_for_name with
    | none =>
      refine prepassFields_isSome lang ts init f ?_
      rcases h with h | h
      · unfold resolvedFields at h
        rw [List.filterMap_cons, hres] at h
        exact Or.inl h
      · exact Or.inr h
    | some f0 =>
      refine prepassFields_isSome lang ts (alOrInsertEmpty init f0) f ?_
      rcases h with h | h
      · unfold resolvedFields at h
        rw [List.filterMap_cons, hres] at h
        rcases List.mem_cons.mp h with rfl | h2
        · refine Or.inr ?_
          rw [alGet_alOrInsertEmpty]
          simp
        · exact Or.inl h2
      · refine Or.inr ?_
        rw [alGet_alOrInsertEmpty]
        by_cases hf : f0 = f
        · simp [hf]
        · simpa [hf] using h

/-- C3 (corrected): a clause with a kind set but no field is registered, per
matching kind id, in the kind-id bucket without a kind filter, and is
replicated (carrying the kind id as a runtime filter) into *every* field
bucket of the state — the first pass pre-instantiates a bucket for every
field id resolvable from any clause of the state, earlier or later, before
any clause is processed. -/
theorem c3_kind_only_replication (lang : Language) (regexOk : String → Bool)
    (st : PropertyStateJSON) (pats0 : List String) (ps : PropertyState)
    (pats1 : List String) (l1 l2 : List PropertyTransitionJSON)
    (c : PropertyTransitionJSON) (kn : String) (f k : Nat)
    (hsplit : st.transitions = l1 ++ c :: l2)
    (hkind : c.kind = some kn)
    (hfield : c.field.bind lang.field_id_for_name = none)
    (hf : f ∈ resolvedFields lang st.transitions)
    (hk : k ∈ matchingKinds lang kn c.named)
    (h : processState lang regexOk st pats0 = .ok (ps, pats1)) :
    (∃ t ∈ (alGet ps.field_transitions f).getD [],
      t.state_id = c.state_id ∧ t.child_index = c.index ∧ t.node_kind_id = some k) ∧
    (∃ t ∈ (alGet ps.kind_transitions k).getD [],
      t.state_id = c.state_id ∧ t.child_index = c.index ∧ t.node_kind_id = none) := by
  unfold processState at h
  cases hc : processClauses lang regexOk st.transitions
      ([], prepassFields lang st.transitions [], pats0) with
  | error e =>
    rw [hc] at h
    exact absurd h (by simp)
  | ok acc =>
    rw [hc] at h
    rcases acc with ⟨kT, fT, patsF⟩
    simp only at h
    rcases h with ⟨rfl, rfl⟩
    rw [hsplit] at hc
    rcases processClauses_append lang regexOk l1 (c :: l2) _ _ hc with ⟨mid, h1, h2⟩
    rcases mid with ⟨kT1, fT1, patsA⟩
    rw [processClauses] at h2
    cases hcc : processClause lang regexOk c (kT1, fT1, patsA) with
    | error e =>
      rw [hcc] at h2
      exact absurd h2 (by simp)
    | ok acc2 =>
      rw [hcc] at h2
      rcases acc2 with ⟨kT2, fT2, patsB⟩
      have hpre : (alGet (prepassFields lang st.transitions []) f).isSome = true :=
        prepassFields_isSome lang st.transitions [] f (Or.inl hf)
      rcases Option.isSome_iff_exists.mp hpre with ⟨b0, hb0⟩
      rcases processClauses_grow lang regexOk l1 _ _ _ _ _ _ h1 with ⟨_, hgf1⟩
      rcases hgf1 f b0 (by rw [← hsplit]; exact hb0) with ⟨x1, hx1⟩
      unfold processClause at hcc
      cases hr : resolveRegexIndex regexOk c.text patsA with
      | error e =>
        rw [hr] at hcc
        exact absurd hcc (by simp)
      | ok r =>
        rw [hr] at hcc
        rcases r with ⟨idx, patsR⟩
        rw [hkind, hfield] at hcc
        simp only at hcc
        rcases hcc with ⟨rfl, rfl, rfl⟩
        have hrep := registerKind_fold_replicate c.state_id c.index idx
          (matchingKinds lang kn c.named) kT1 fT1
        have hfield2 := hrep.1 f (b0 ++ x1) hx1
        have hkind2 := hrep.2 k hk
        rcases processClauses_grow lang regexOk l2 _ _ _ _ _ _ h2 with ⟨hgk3, hgf3⟩
        constructor
        · have hmem : (⟨c.state_id, c.index, idx, some k⟩ : PropertyTransition)
              ∈ (alGet (((matchingKinds lang kn c.named).foldl
                  (registerKind none c.state_id c.index idx) (kT1, fT1)).2) f).getD [] := by
            rw [hfield2]
            simp only [Option.getD_some]
            refine List.mem_append.mpr (Or.inr ?_)
            exact List.mem_map.mpr ⟨k, hk, rfl⟩
          exact ⟨⟨c.state_id, c.index, idx, some k⟩,
            mem_bucket_of_grow _ _ f _ hgf3 hmem, rfl, rfl, rfl⟩
        · exact ⟨⟨c.state_id, c.index, idx, none⟩,
            mem_bucket_of_grow _ _ k _ hgk3 hkind2, rfl, rfl, rfl⟩

/-- Witness for `c3_kind_only_replication` at a concrete input: in `stC3` the
field `"f"` (id 1) is named only by the *later* clause, and the earlier
kind-only clause's replica still lands in its bucket. -/
theorem c3_kind_only_replication_witness :
    (∃ t ∈ (alGet [(1, [(⟨5, none, none, some 0⟩ : PropertyTransition),
        ⟨6, none, none, none⟩])] 1).getD [],
      t.state_id = 5 ∧ t.child_index = none ∧ t.node_kind_id = some 0) ∧
    (∃ t ∈ (alGet [(0, [(⟨5, none, none, none⟩ : PropertyTransition)])] 0).getD [],
      t.state_id = 5 ∧ t.child_index = none ∧ t.node_kind_id = none) :=
  c3_kind_only_replication langC3 rokTrue stC3 [] _ []
    [] [clauseFieldOnly] clauseKindOnly "k" 1 0 rfl rfl rfl (by decide) (by decide) rfl

end TreeSurgent
